import Mathlib

set_option linter.unusedVariables false

/-!
Verification of the 1C_creator hierarchy-to-RDF/XML pipeline.

Shallow embedding of the two core modules:
* `modules/hierarchy_parser.py` — `HierarchyParser.parse`
* `modules/xml_generator.py` — `XMLGenerator.generate`
plus the call wiring in `main.py`.

Paths are lists of trimmed segment strings.  Python dictionaries are
modelled as association lists with last-write-wins update; Python sets
are modelled as duplicate-free lists in first-insertion order (CPython
set iteration order is unspecified; membership, the only thing the
algorithms depend on, is modelled exactly).
-/

abbrev SegPath := List String

/-- Association-list lookup (Python `d[k]` / `k in d`). -/
def getVal? {α : Type} (m : List (SegPath × α)) (k : SegPath) : Option α :=
  match m with
  | [] => none
  | (k', v) :: rest => if k' = k then some v else getVal? rest k

/-- Association-list update (Python `d[k] = v`, last write wins). -/
def updMap {α : Type} (m : List (SegPath × α)) (k : SegPath) (v : α) : List (SegPath × α) :=
  match m with
  | [] => [(k, v)]
  | (k', v') :: rest => if k' = k then (k, v) :: rest else (k', v') :: updMap rest k v

/-- Set insertion modelled on a duplicate-free list (Python `s.add(x)`). -/
def addToSet (s : List SegPath) (x : SegPath) : List SegPath :=
  if x ∈ s then s else s ++ [x]

namespace HierarchyParser

/-- Embeds Python `str.strip()` (ASCII whitespace; the concrete inputs here
contain no exotic Unicode spaces). -/
def trimStr (s : String) : String :=
  String.mk (((s.data.dropWhile Char.isWhitespace).reverse.dropWhile
    Char.isWhitespace).reverse)

/-- Embeds Python `line.split('\\')` at the character level (structural
recursion so that concrete inputs evaluate inside the kernel). -/
def splitOnBS : List Char → List (List Char)
  | [] => [[]]
  | c :: rest =>
    match splitOnBS rest with
    | [] => [[]]
    | cur :: done => if c = '\\' then [] :: cur :: done else (c :: cur) :: done

/-- Embeds `tuple(p.strip() for p in line.split('\\') if p.strip())`
(hierarchy_parser.py line 132). -/
def splitLine (s : String) : SegPath :=
  ((splitOnBS s.data).map (fun cs => trimStr (String.mk cs))).filter
    (fun t => t ≠ "")

/-- Embeds the `path_to_uid` dictionary built on lines 131-136: for each
record whose split path is non-empty and whose uid is non-empty,
`path_to_uid[parts] = uid`. -/
def buildPathToUid (lines : List (String × String)) : List (SegPath × String) :=
  lines.foldl
    (fun m lu =>
      let parts := splitLine lu.1
      if parts ≠ [] ∧ lu.2 ≠ "" then updMap m parts lu.2 else m)
    []

/-- Embeds `all_raw_paths` (lines 131-134): every record whose split path is
non-empty contributes its path, in input order, duplicates kept. -/
def allRawPaths (lines : List (String × String)) : List SegPath :=
  (lines.map (fun lu => splitLine lu.1)).filter (fun p => p ≠ [])

/-- Embeds the ancestor loop `for i in range(1, len(r)): paths_to_create.add(r[:i])`
(lines 156-158 and 166-168). -/
def addAncestors (s : List SegPath) (r : SegPath) : List SegPath :=
  (List.range' 1 (r.length - 1)).foldl (fun acc i => addToSet acc (r.take i)) s

/-- Embeds `external_children[parent].append(uid)` on a `defaultdict(list)`
(line 152): first touch creates the entry, later touches append. -/
def appendEC (ec : List (SegPath × List String)) (k : SegPath) (u : String) :
    List (SegPath × List String) :=
  match ec with
  | [] => [(k, [u])]
  | (k', us) :: rest =>
    if k' = k then (k', us ++ [u]) :: rest else (k', us) :: appendEC rest k u

/-- Embeds `parent_path = path[:-1] if len(path) > 1 else tuple()`
(line 149). -/
def parentOf (path : SegPath) : SegPath :=
  if path.length > 1 then path.dropLast else []

/-- Embeds one iteration of the main loop of `HierarchyParser.parse`
(lines 143-168).  The accumulator is `(paths_to_create, external_children)`.
A path found in `path_to_uid` is not added itself: its parent receives the
uid and is added together with that parent's strict prefixes; a root-level
uid record (empty parent) only logs a warning and leaves the state
unchanged.  A path not in `path_to_uid` is added together with its strict
prefixes. -/
def processPath (ptu : List (SegPath × String))
    (st : List SegPath × List (SegPath × List String)) (path : SegPath) :
    List SegPath × List (SegPath × List String) :=
  match getVal? ptu path with
  | some uid =>
    if parentOf path ≠ [] then
      (addAncestors (addToSet st.1 (parentOf path)) (parentOf path),
       appendEC st.2 (parentOf path) uid)
    else
      st
  | none => (addAncestors (addToSet st.1 path) path, st.2)

/-- Embeds `HierarchyParser.parse` (lines 117-182), starting from decoded
`(path-string, uid)` records.  Returns `(paths, external_children)`;
`list(paths_to_create)` is modelled in first-insertion order. -/
def parse (lines : List (String × String)) :
    List SegPath × List (SegPath × List String) :=
  (allRawPaths lines).foldl (processPath (buildPathToUid lines)) ([], [])

/-- Strict-prefix relation on paths: `q` is a proper non-trivial initial
segment of `p`. -/
def strictPref (q p : SegPath) : Prop :=
  q.length < p.length ∧ p.take q.length = q

instance (q p : SegPath) : Decidable (strictPref q p) := by
  unfold strictPref; infer_instance

/-- Closure of a path set under non-empty strict prefixes. -/
def prefClosed (S : List SegPath) : Prop :=
  ∀ p ∈ S, ∀ q, q ≠ [] → strictPref q p → q ∈ S

end HierarchyParser

namespace XMLGenerator

/-- Configuration values read by `XMLGenerator.__init__` (xml_generator.py
lines 33-44): namespace prefix→URI pairs and the FullModel metadata. -/
structure Config where
  namespaces : List (String × String)
  modelId : String
  modelCreated : String
  modelVersion : String
  modelName : String

/-- First-occurrence deduplication of `l` relative to an already-seen list
`seen`; `dedupF paths []` models iteration over `all_nodes = set(paths)`
(xml_generator.py line 94) in first-insertion order. -/
def dedupF : List SegPath → List SegPath → List SegPath
  | [], _ => []
  | x :: xs, seen =>
    if x ∈ seen then dedupF xs seen else x :: dedupF xs (x :: seen)

/-- Embeds the body of the edge loop for one `(parent, child)` pair
(lines 104-105): `children_map` is a `defaultdict(list)`; the child is
appended unless already present. -/
def addChildEdge (cm : List (SegPath × List SegPath)) (parent child : SegPath) :
    List (SegPath × List SegPath) :=
  match getVal? cm parent with
  | some cs => if child ∈ cs then cm else updMap cm parent (cs ++ [child])
  | none => cm ++ [(parent, [child])]

/-- Embeds the body of the tree-reconstruction loop for one split point
`i` of one `path` (lines 100-106): `parent = path[:i]`,
`child = path[:i+1]`; when both are members of the `paths` list, append
the child edge and set `parent_map[child] = parent`. -/
def edgeStep (paths : List SegPath) (path : SegPath)
    (st2 : List (SegPath × List SegPath) × List (SegPath × SegPath))
    (i : Nat) :
    List (SegPath × List SegPath) × List (SegPath × SegPath) :=
  if path.take i ∈ paths ∧ path.take (i + 1) ∈ paths then
    (addChildEdge st2.1 (path.take i) (path.take (i + 1)),
     updMap st2.2 (path.take (i + 1)) (path.take i))
  else st2

/-- Invariant of the reconstruction state: every `children_map` entry is a
duplicate-free list of members of `paths`, and every `parent_map` binding
maps a member of length ≥ 2 to its immediate prefix, also a member. -/
def mapsInv (paths : List SegPath)
    (st : List (SegPath × List SegPath) × List (SegPath × SegPath)) : Prop :=
  (∀ k cs, getVal? st.1 k = some cs → (∀ x ∈ cs, x ∈ paths) ∧ cs.Nodup) ∧
  (∀ k v, getVal? st.2 k = some v →
    2 ≤ k.length ∧ k ∈ paths ∧ v = k.dropLast ∧ k.dropLast ∈ paths)

/-- Embeds the inner loop `for i in range(1, len(path))` (line 100). -/
def pathEdges (paths : List SegPath)
    (st : List (SegPath × List SegPath) × List (SegPath × SegPath))
    (path : SegPath) :
    List (SegPath × List SegPath) × List (SegPath × SegPath) :=
  (List.range' 1 (path.length - 1)).foldl (edgeStep paths path) st

/-- Embeds the tree-reconstruction loop (lines 99-106), producing
`(children_map, parent_map)`. -/
def buildMaps (paths : List SegPath) :
    List (SegPath × List SegPath) × List (SegPath × SegPath) :=
  paths.foldl (pathEdges paths) ([], [])

/-- The reconstructed `children_map`. -/
def cmOf (paths : List SegPath) : List (SegPath × List SegPath) :=
  (buildMaps paths).1

/-- The reconstructed `parent_map`. -/
def pmOf (paths : List SegPath) : List (SegPath × SegPath) :=
  (buildMaps paths).2

/-- Children list of a node (`children_map[p]`, default empty). -/
def childrenOf (cm : List (SegPath × List SegPath)) (p : SegPath) : List SegPath :=
  (getVal? cm p).getD []

/-- Iteration order of `all_nodes = set(paths)`, the key set of `id_map`
(line 109), modelled as first-insertion order. -/
def idDomain (paths : List SegPath) : List SegPath :=
  dedupF paths []

/-- Position of `p` in the id-assignment order. -/
def idxOf : List SegPath → SegPath → Nat
  | [], _ => 0
  | x :: xs, p => if x = p then 0 else idxOf xs p + 1

/-- Embeds `id_map = {node: self._generate_id(node) for node in all_nodes}`
(line 109) with `_generate_id` (lines 46-58) returning `"#_" + uuid4()`:
the opaque uuid4 stream is abstracted as a supplier `g` of fresh tokens,
consumed one per node in iteration order. -/
def idOf (g : Nat → String) (paths : List SegPath) (p : SegPath) : String :=
  "#_" ++ g (idxOf (idDomain paths) p)

/-- Embeds the category decision (lines 148-157): roots are
`cim:AssetContainer`; other nodes are `me:GenericPSR` exactly when
`is_leaf`, i.e. `children_map` has no (non-empty) entry for them. -/
def elementType (cm : List (SegPath × List SegPath)) (p : SegPath) : String :=
  if p.length = 1 then "cim:AssetContainer"
  else if childrenOf cm p = [] then "me:GenericPSR"
  else "cim:AssetContainer"

/-- Embeds the parent-reference resolution (lines 164-173): roots use the
supplied `parent_uid`; then a `parent_uid_map` binding rendered as
`"#_" + uid`; then the reconstructed parent's generated id; else the
`parent_uid` fallback. -/
def parentResource (g : Nat → String) (paths : List SegPath)
    (pm : List (SegPath × SegPath)) (pum : List (SegPath × String))
    (pu : String) (p : SegPath) : String :=
  if p.length = 1 then pu
  else
    match getVal? pum p with
    | some u => "#_" ++ u
    | none =>
      match getVal? pm p with
      | some q => if q ∈ idDomain paths then idOf g paths q else pu
      | none => pu

/-- Opening element line (line 160). -/
def openLine (et cid : String) : String :=
  "  <" ++ et ++ " rdf:about=\"" ++ cid ++ "\">"

/-- Name line (lines 161-162); `current[-1]` presupposes a non-empty path
(the data model's paths are non-empty sequences); `getLastD` totalizes the
Python `IndexError` on the unreachable empty path. -/
def nameLine (p : SegPath) : String :=
  "    <cim:IdentifiedObject.name>" ++ p.getLastD "" ++
    "</cim:IdentifiedObject.name>"

/-- ParentObject line (lines 175-176). -/
def parentLine (pr : String) : String :=
  "    <me:IdentifiedObject.ParentObject rdf:resource=\"" ++ pr ++ "\" />"

/-- Category-specific secondary link (lines 179-184). -/
def assetLines (et pr : String) : List String :=
  if et = "cim:AssetContainer" then
    ["    <cim:Asset.AssetContainer rdf:resource=\"" ++ pr ++ "\" />"]
  else if et = "me:GenericPSR" then
    ["    <cim:PowerSystemResource.Assets rdf:resource=\"" ++ pr ++ "\" />"]
  else []

/-- Inventory-code lines (lines 186-196): emitted only for a non-empty
`cck_map` entry, under a category-specific tag. -/
def kksLines (cck : List (SegPath × String)) (et : String) (p : SegPath) :
    List String :=
  match getVal? cck p with
  | some k =>
    if k ≠ "" then
      if et = "cim:AssetContainer" then
        ["    <me:IdentifiedObject.mRIDStr>" ++ k ++ "</me:IdentifiedObject.mRIDStr>"]
      else if et = "me:GenericPSR" then
        ["    <rh:PowerSystemResource.ccsCode>" ++ k ++ "</rh:PowerSystemResource.ccsCode>"]
      else []
    else []
  | none => []

/-- ChildObjects reference line (lines 208-209). -/
def childLine (cid : String) : String :=
  "    <me:IdentifiedObject.ChildObjects rdf:resource=\"" ++ cid ++ "\" />"

/-- Embeds the body of the child loop for one child (lines 204-211): skip
children outside `id_map`, deduplicate by generated id via the
`added_children` set, emit one ChildObjects line per kept child and
collect the kept child for enqueueing.  Accumulator components: added
ids, emitted lines, enqueued children. -/
def childStep (g : Nat → String) (paths : List SegPath)
    (st : List String × List String × List SegPath) (child : SegPath) :
    List String × List String × List SegPath :=
  if child ∈ idDomain paths then
    if idOf g paths child ∈ st.1 then st
    else (st.1 ++ [idOf g paths child],
          st.2.1 ++ [childLine (idOf g paths child)],
          st.2.2 ++ [child])
  else st

/-- Embeds the whole child loop of one visit (lines 200-211), returning
the emitted ChildObjects lines and the children enqueued. -/
def childFold (g : Nat → String) (paths : List SegPath)
    (cm : List (SegPath × List SegPath)) (p : SegPath) :
    List String × List SegPath :=
  ((childrenOf cm p).foldl (childStep g paths) ([], [], [])).2

/-- All lines emitted for one visited node (lines 147-222), in source
order: opening tag, name, ParentObject, secondary link, inventory code,
ChildObjects (AssetContainer only), closing tag. -/
def emitLines (g : Nat → String) (paths : List SegPath)
    (cm : List (SegPath × List SegPath)) (pm : List (SegPath × SegPath))
    (pum : List (SegPath × String)) (pu : String)
    (cck : List (SegPath × String)) (p : SegPath) : List String :=
  let et := elementType cm p
  let pr := parentResource g paths pm pum pu p
  [openLine et (idOf g paths p), nameLine p, parentLine pr]
    ++ assetLines et pr
    ++ kksLines cck et p
    ++ (if et = "cim:AssetContainer" then (childFold g paths cm p).1 else [])
    ++ ["  </" ++ et ++ ">"]

/-- Children enqueued while visiting `p` (line 211): only inside the
AssetContainer branch. -/
def kids (g : Nat → String) (paths : List SegPath)
    (cm : List (SegPath × List SegPath)) (p : SegPath) : List SegPath :=
  if elementType cm p = "cim:AssetContainer" then (childFold g paths cm p).2
  else []

/-- Embeds the breadth-first emission loop (lines 134-222): a FIFO queue
seeded with all paths, a visited set, per-visit line emission and child
enqueueing.  The `c ∉ idDomain` branch models the `KeyError` that
`id_map[current]` would raise; it is unreachable when the queue holds
only members of `paths`. -/
def genLoop (g : Nat → String) (paths : List SegPath)
    (cm : List (SegPath × List SegPath)) (pm : List (SegPath × SegPath))
    (pum : List (SegPath × String)) (pu : String)
    (cck : List (SegPath × String)) :
    List SegPath → List SegPath → Except String (List String)
  | [], _ => .ok []
  | c :: tail, processed =>
    if c ∈ processed then genLoop g paths cm pm pum pu cck tail processed
    else if hc : c ∈ idDomain paths then
      match genLoop g paths cm pm pum pu cck
          (tail ++ kids g paths cm c) (c :: processed) with
      | .ok rest => .ok (emitLines g paths cm pm pum pu cck c ++ rest)
      | .error e => .error e
    else .error "KeyError"
  termination_by queue processed =>
    (((idDomain paths).filter (fun x => decide (x ∉ processed))).length,
     queue.length)
  decreasing_by
  · apply Prod.Lex.right
    simp only [List.length_cons]
    omega
  · apply Prod.Lex.left
    have key :
        ∀ (l s : List SegPath) (a : SegPath), a ∈ l → a ∉ s →
          (l.filter (fun x => decide (x ∉ a :: s))).length <
            (l.filter (fun x => decide (x ∉ s))).length := by
      intro l s a hl has
      have mono :
          ∀ (l' : List SegPath),
            (l'.filter (fun x => decide (x ∉ a :: s))).length ≤
              (l'.filter (fun x => decide (x ∉ s))).length := by
        intro l'
        refine List.Sublist.length_le (List.monotone_filter_right l' ?_)
        intro b hb
        simp only [decide_eq_true_eq] at hb ⊢
        exact fun hmem => hb (List.mem_cons_of_mem _ hmem)
      induction l with
      | nil => cases hl
      | cons b bs ih =>
        by_cases hba : b = a
        · subst hba
          have h1 : (decide (b ∉ b :: s)) = false := by simp
          have h2 : (decide (b ∉ s)) = true := by simpa using has
          simp only [List.filter, h1, h2]
          exact Nat.lt_succ_of_le (mono bs)
        · have ha' : a ∈ bs := by
            cases hl with
            | head => exact absurd rfl hba
            | tail _ h => exact h
          have heq : (decide (b ∉ a :: s)) = (decide (b ∉ s)) := by
            by_cases hbs : b ∈ s
            · simp [hbs]
            · simp [hbs, hba]
          simp only [List.filter, heq]
          cases hdec : decide (b ∉ s) with
          | true => simpa using Nat.succ_lt_succ (ih ha')
          | false => simpa using ih ha'
    exact key _ _ _ hc (by assumption)

/-- Fixed document framing (lines 112-131): XML declaration, processing
instructions, the RDF open tag with one attribute per namespace pair, and
the FullModel block with `model_id` rendered as `"#_" + model_id`. -/
def headerLines (cfg : Config) : List String :=
  ["<?xml version=\"1.0\" encoding=\"utf-8\"?>",
   "<?iec61970-552 version=\"2.0\"?>",
   "<?floatExporter 1?>",
   cfg.namespaces.foldl
     (fun acc nu => acc ++ " xmlns:" ++ nu.1 ++ "=\"" ++ nu.2 ++ "\"")
     "<rdf:RDF" ++ ">",
   "  <md:FullModel rdf:about=\"" ++ ("#_" ++ cfg.modelId) ++ "\">",
   "    <md:Model.created>" ++ cfg.modelCreated ++ "</md:Model.created>",
   "    <md:Model.version>" ++ cfg.modelVersion ++ "</md:Model.version>",
   "    <me:Model.name>" ++ cfg.modelName ++ "</me:Model.name>",
   "  </md:FullModel>"]

/-- Embeds `XMLGenerator.generate` (lines 60-226) at line granularity.
Raises `ValueError` on an empty paths list (lines 86-87); the parameters
`ec` (`external_children`) and `vc` (`virtual_containers`) are accepted
but never used by the body (the legacy external-children emission block,
lines 214-220, is commented out in the source). -/
def generateLines (cfg : Config) (g : Nat → String) (paths : List SegPath)
    (ec : List (SegPath × List String)) (pu : String)
    (cck : List (SegPath × String)) (pum : List (SegPath × String))
    (vc : List SegPath) : Except String (List String) :=
  if paths = [] then .error "Нет данных для генерации"
  else
    match genLoop g paths (cmOf paths) (pmOf paths) pum pu cck paths [] with
    | .ok body => .ok (headerLines cfg ++ body ++ ["</rdf:RDF>"])
    | .error e => .error e

/-- Embeds the returned document, `'\n'.join(lines)` (line 226). -/
def generate (cfg : Config) (g : Nat → String) (paths : List SegPath)
    (ec : List (SegPath × List String)) (pu : String)
    (cck : List (SegPath × String)) (pum : List (SegPath × String))
    (vc : List SegPath) : Except String String :=
  (generateLines cfg g paths ec pu cck pum vc).map (String.intercalate "\n")

end XMLGenerator

namespace MainPy

open XMLGenerator

/-- Parameter list of `XMLGenerator.generate` after `self`
(xml_generator.py lines 60-70), with a flag marking the presence of a
default value: only `virtual_containers` has one. -/
def generateParams : List (String × Bool) :=
  [("paths", false), ("external_children", false), ("parent_uid", false),
   ("cck_map", false), ("parent_uid_map", false), ("virtual_containers", true)]

/-- Models CPython argument binding for a call supplying `nPos` positional
arguments and the keyword arguments `kw`: `TypeError` when a keyword
rebinds a positionally filled parameter, names no parameter, or when any
parameter without a default stays unbound. -/
def bindCall (params : List (String × Bool)) (nPos : Nat) (kw : List String) :
    Except String Unit :=
  if params.length < nPos then
    .error "TypeError: too many positional arguments"
  else if kw.any (fun k => (params.take nPos).any (fun pr => pr.1 = k)) then
    .error "TypeError: multiple values for argument"
  else if kw.any (fun k => params.all (fun pr => pr.1 ≠ k)) then
    .error "TypeError: unexpected keyword argument"
  else if ((params.drop nPos).filter
      (fun pr => !pr.2 && !(kw.contains pr.1))) = [] then
    .ok ()
  else
    .error "TypeError: missing required positional arguments"

/-- Models `main.main` (main.py lines 36-113): normalize the entered
parent uid, parse, return with a logged error when no paths were
produced, then call `generator.generate(paths, external_children,
parent_uid=parent_uid)` (line 90) inside try/except — argument binding
happens first, a `TypeError` is caught at line 93 and `main` returns
without writing — and only on success write `output.xml`.  The result is
the written document, `none` when no file is written.  The arguments in
the success branch are placeholders: C10 proves that branch unreachable
for this call shape. -/
def mainRun (cfg : Config) (g : Nat → String)
    (lines : List (String × String)) (parentUid : String) : Option String :=
  let pu := if parentUid.startsWith "#" then parentUid else "#" ++ parentUid
  let pr := HierarchyParser.parse lines
  if pr.1 = [] then none
  else
    match bindCall generateParams 2 ["parent_uid"] with
    | .error _ => none
    | .ok _ =>
      match generate cfg g pr.1 pr.2 pu [] [] [] with
      | .ok xml => some xml
      | .error _ => none

end MainPy

/-- Codepoint-wise string comparison (Python `str` ordering). -/
def ltChars : List Char → List Char → Bool
  | [], [] => false
  | [], _ :: _ => true
  | _ :: _, [] => false
  | a :: as, b :: bs =>
    if a.toNat < b.toNat then true
    else if a = b then ltChars as bs else false

/-- Spec-side comparison order for C4: lexicographic comparison of segment
tuples (Python tuple ordering over strings). -/
def lexLtStr : SegPath → SegPath → Bool
  | [], [] => false
  | [], _ :: _ => true
  | _ :: _, [] => false
  | a :: as, b :: bs =>
    if ltChars a.data b.data then true
    else if a = b then lexLtStr as bs else false

/-- Spec-side statement for C4: the list is sorted lexicographically by the
segment tuple. -/
def lexSorted (l : List SegPath) : Prop :=
  List.Pairwise (fun p q => lexLtStr p q = true) l

instance (l : List SegPath) : Decidable (lexSorted l) := by
  unfold lexSorted
  infer_instance

namespace XMLGenerator

/-- Spec-side parent reference for C8, parameterized by an arbitrary
identifier assignment `ids` instead of the uuid4-backed `id_map`; its
structure follows spec §4.2 step 4. -/
def parentResourceT (ids : SegPath → String) (paths : List SegPath)
    (pm : List (SegPath × SegPath)) (pum : List (SegPath × String))
    (pu : String) (p : SegPath) : String :=
  if p.length = 1 then pu
  else
    match getVal? pum p with
    | some u => "#_" ++ u
    | none =>
      match getVal? pm p with
      | some q => if q ∈ idDomain paths then ids q else pu
      | none => pu

/-- Spec-side element block for C8: the per-node lines as a function of the
identifier assignment only — category, name, parent link and the child set
are fixed by the resolved hierarchy. -/
def blockT (ids : SegPath → String) (paths : List SegPath)
    (cm : List (SegPath × List SegPath)) (pm : List (SegPath × SegPath))
    (pum : List (SegPath × String)) (pu : String)
    (cck : List (SegPath × String)) (p : SegPath) : List String :=
  let et := elementType cm p
  let pr := parentResourceT ids paths pm pum pu p
  [openLine et (ids p), nameLine p, parentLine pr]
    ++ assetLines et pr
    ++ kksLines cck et p
    ++ (if et = "cim:AssetContainer" then
          (childrenOf cm p).map (fun c => childLine (ids c))
        else [])
    ++ ["  </" ++ et ++ ">"]

/-- Spec-side whole document for C8: the structural template of the output;
two generation runs instantiate this one template at their respective
identifier assignments. -/
def docT (cfg : Config) (ids : SegPath → String) (paths : List SegPath)
    (cm : List (SegPath × List SegPath)) (pm : List (SegPath × SegPath))
    (pum : List (SegPath × String)) (pu : String)
    (cck : List (SegPath × String)) : List String :=
  headerLines cfg ++
    (idDomain paths).flatMap (blockT ids paths cm pm pum pu cck) ++
    ["</rdf:RDF>"]

end XMLGenerator

/-- Minimal concrete configuration used by concrete instances below. -/
def cfg0 : XMLGenerator.Config :=
  ⟨[], "m", "c", "v", "n"⟩

/-- Constant token supplier, modelling a uuid4 stream that returns the same
token twice. -/
def gConst : Nat → String := fun _ => "X"

/-- Injective token supplier used by witnesses. -/
def gInj : Nat → String := fun n => String.mk (List.replicate n 'a')

section ParserSanity

open HierarchyParser

example : splitLine "A\\B" = ["A", "B"] := by decide

example : splitLine "X\\" = ["X"] := by decide

example :
    parse [("A\\B", "u1"), ("A\\B\\C", "")] =
      ([["A"], ["A", "B", "C"], ["A", "B"]], [(["A"], ["u1"])]) := by decide

example : parse [("X\\", "999")] = ([], []) := by decide

end ParserSanity

section MapSetLemmas

theorem getVal?_updMap {α : Type} (m : List (SegPath × α)) (k k' : SegPath) (v : α) :
    getVal? (updMap m k v) k' = if k = k' then some v else getVal? m k' := by
  induction m with
  | nil => simp [updMap, getVal?]
  | cons kv rest ih =>
    obtain ⟨k₀, v₀⟩ := kv
    by_cases h : k₀ = k
    · subst h
      by_cases h' : k₀ = k'
      · subst h'
        simp [updMap, getVal?]
      · simp [updMap, getVal?, h']
    · by_cases h' : k₀ = k'
      · subst h'
        have hne : ¬ k = k₀ := fun he => h he.symm
        simp [updMap, getVal?, h, hne, ih]
      · simp [updMap, getVal?, h, h', ih]

theorem isSome_getVal?_updMap {α : Type} (m : List (SegPath × α)) (k k' : SegPath)
    (v : α) (h : (getVal? m k').isSome) : (getVal? (updMap m k v) k').isSome := by
  rw [getVal?_updMap]
  by_cases he : k = k' <;> simp [he, h]

theorem mem_addToSet {s : List SegPath} {x y : SegPath} :
    x ∈ addToSet s y ↔ x ∈ s ∨ x = y := by
  unfold addToSet
  by_cases h : y ∈ s
  · simp only [h, if_true]
    exact ⟨Or.inl, fun hx => hx.elim id (fun he => he ▸ h)⟩
  · simp [h]

theorem mem_foldl_addToSet {β : Type} (f : β → SegPath) (l : List β)
    (s : List SegPath) (x : SegPath) :
    x ∈ l.foldl (fun acc i => addToSet acc (f i)) s ↔
      x ∈ s ∨ ∃ i ∈ l, x = f i := by
  induction l generalizing s with
  | nil => simp
  | cons a as ih =>
    simp only [List.foldl_cons]
    rw [ih]
    simp only [mem_addToSet, List.mem_cons]
    constructor
    · rintro ((hs | rfl) | ⟨i, hi, rfl⟩)
      · exact Or.inl hs
      · exact Or.inr ⟨a, Or.inl rfl, rfl⟩
      · exact Or.inr ⟨i, Or.inr hi, rfl⟩
    · rintro (hs | ⟨i, (rfl | hi), rfl⟩)
      · exact Or.inl (Or.inl hs)
      · exact Or.inl (Or.inr rfl)
      · exact Or.inr ⟨i, hi, rfl⟩

theorem nodup_addToSet {s : List SegPath} {x : SegPath} (h : s.Nodup) :
    (addToSet s x).Nodup := by
  unfold addToSet
  by_cases hx : x ∈ s
  · simpa [hx] using h
  · simp [hx, List.nodup_append, h]

theorem nodup_foldl_addToSet {β : Type} (f : β → SegPath) (l : List β)
    {s : List SegPath} (h : s.Nodup) :
    (l.foldl (fun acc i => addToSet acc (f i)) s).Nodup := by
  induction l generalizing s with
  | nil => exact h
  | cons a as ih => exact ih (nodup_addToSet h)

end MapSetLemmas

namespace HierarchyParser

theorem mem_addAncestors {s : List SegPath} {r x : SegPath} :
    x ∈ addAncestors s r ↔
      x ∈ s ∨ ∃ i, 1 ≤ i ∧ i < r.length ∧ x = r.take i := by
  unfold addAncestors
  rw [mem_foldl_addToSet]
  simp only [List.mem_range'_1]
  constructor
  · rintro (hs | ⟨i, ⟨h1, h2⟩, rfl⟩)
    · exact Or.inl hs
    · exact Or.inr ⟨i, h1, by omega, rfl⟩
  · rintro (hs | ⟨i, h1, h2, rfl⟩)
    · exact Or.inl hs
    · exact Or.inr ⟨i, ⟨h1, by omega⟩, rfl⟩

/-- Membership after one whole chain insertion `addAncestors (addToSet s r) r`:
either an old element, `r` itself, or a non-trivial strict truncation of `r`. -/
theorem mem_addChain {s : List SegPath} {r x : SegPath} :
    x ∈ addAncestors (addToSet s r) r ↔
      x ∈ s ∨ x = r ∨ ∃ i, 1 ≤ i ∧ i < r.length ∧ x = r.take i := by
  rw [mem_addAncestors, mem_addToSet]
  tauto

theorem strictPref_take {r : SegPath} {i : Nat} (h1 : 1 ≤ i) (h2 : i < r.length) :
    strictPref (r.take i) r := by
  constructor
  · simp [List.length_take]
    omega
  · have hlen : (r.take i).length = i := by
      simp [List.length_take]
      omega
    rw [hlen]

theorem strictPref_dropLast {r : SegPath} (h : 1 < r.length) :
    strictPref r.dropLast r := by
  rw [List.dropLast_eq_take]
  exact strictPref_take (by omega) (by omega)

theorem dropLast_take_eq {r : SegPath} {i : Nat} (h : i ≤ r.length - 1) :
    r.dropLast.take i = r.take i := by
  rw [List.dropLast_eq_take, List.take_take]
  congr 1
  omega

theorem parentOf_ne_nil {a : SegPath} (h : parentOf a ≠ []) : 1 < a.length := by
  by_contra hle
  exact h (by simp [parentOf]; omega)

theorem parentOf_eq_dropLast {a : SegPath} (h : 1 < a.length) :
    parentOf a = a.dropLast := by
  simp [parentOf, h]

/-- Closure of `paths_to_create` under non-empty strict prefixes is
preserved by one whole chain insertion. -/
theorem prefClosed_addChain {S : List SegPath} (r : SegPath) (h : prefClosed S) :
    prefClosed (addAncestors (addToSet S r) r) := by
  intro p hp q hq hqp
  rw [mem_addChain] at hp ⊢
  rcases hp with hS | rfl | ⟨i, hi1, hi2, rfl⟩
  · exact Or.inl (h p hS q hq hqp)
  · refine Or.inr (Or.inr ⟨q.length, ?_, hqp.1, hqp.2.symm⟩)
    cases q with
    | nil => exact absurd rfl hq
    | cons _ _ => simp
  · have hlen : (r.take i).length = i := by
      simp [List.length_take]
      omega
    have hql : q.length < i := by
      have := hqp.1
      rwa [hlen] at this
    refine Or.inr (Or.inr ⟨q.length, ?_, by omega, ?_⟩)
    · cases q with
      | nil => exact absurd rfl hq
      | cons _ _ => simp
    · have h2 := hqp.2
      rw [List.take_take] at h2
      rw [inf_eq_left.mpr (by omega : q.length ≤ i)] at h2
      exact h2.symm

theorem processPath_none {ptu : List (SegPath × String)}
    {st : List SegPath × List (SegPath × List String)} {a : SegPath}
    (h : getVal? ptu a = none) :
    processPath ptu st a = (addAncestors (addToSet st.1 a) a, st.2) := by
  unfold processPath
  rw [h]

theorem processPath_some_root {ptu : List (SegPath × String)}
    {st : List SegPath × List (SegPath × List String)} {a : SegPath}
    {uid : String} (h : getVal? ptu a = some uid) (hp : parentOf a = []) :
    processPath ptu st a = st := by
  unfold processPath
  rw [h]
  simp [hp]

theorem processPath_some_child {ptu : List (SegPath × String)}
    {st : List SegPath × List (SegPath × List String)} {a : SegPath}
    {uid : String} (h : getVal? ptu a = some uid) (hp : parentOf a ≠ []) :
    processPath ptu st a =
      (addAncestors (addToSet st.1 (parentOf a)) (parentOf a),
       appendEC st.2 (parentOf a) uid) := by
  unfold processPath
  rw [h]
  simp [hp]

theorem foldl_processPath_prefClosed (ptu : List (SegPath × String))
    (raw : List SegPath) (st : List SegPath × List (SegPath × List String))
    (hst : prefClosed st.1) :
    prefClosed ((raw.foldl (processPath ptu) st).1) := by
  induction raw generalizing st with
  | nil => exact hst
  | cons a as ih =>
    rw [List.foldl_cons]
    refine ih _ ?_
    rcases hgv : getVal? ptu a with _ | uid
    · rw [processPath_none hgv]
      exact prefClosed_addChain a hst
    · by_cases hpp : parentOf a = []
      · rw [processPath_some_root hgv hpp]
        exact hst
      · rw [processPath_some_child hgv hpp]
        exact prefClosed_addChain _ hst

theorem foldl_processPath_nodup (ptu : List (SegPath × String))
    (raw : List SegPath) (st : List SegPath × List (SegPath × List String))
    (hst : st.1.Nodup) :
    ((raw.foldl (processPath ptu) st).1).Nodup := by
  induction raw generalizing st with
  | nil => exact hst
  | cons a as ih =>
    rw [List.foldl_cons]
    refine ih _ ?_
    rcases hgv : getVal? ptu a with _ | uid
    · rw [processPath_none hgv]
      exact nodup_foldl_addToSet _ _ (nodup_addToSet hst)
    · by_cases hpp : parentOf a = []
      · rw [processPath_some_root hgv hpp]
        exact hst
      · rw [processPath_some_child hgv hpp]
        exact nodup_foldl_addToSet _ _ (nodup_addToSet hst)

/-- Paths added to `paths_to_create` while a virtual path `p` is skipped:
`p` can only enter as a strict truncation of a processed raw path. -/
theorem foldl_processPath_skip (ptu : List (SegPath × String))
    (raw : List SegPath) (st : List SegPath × List (SegPath × List String))
    (p : SegPath) (hu : (getVal? ptu p).isSome)
    (hraw : ∀ q ∈ raw, ¬ strictPref p q) (hst : p ∉ st.1) :
    p ∉ ((raw.foldl (processPath ptu) st).1) := by
  induction raw generalizing st with
  | nil => exact hst
  | cons a as ih =>
    rw [List.foldl_cons]
    refine ih _ (fun q hq => hraw q (List.mem_cons_of_mem _ hq)) ?_
    rcases hgv : getVal? ptu a with _ | uid
    · rw [processPath_none hgv]
      intro hmem
      have hmem' : p ∈ addAncestors (addToSet st.1 a) a := hmem
      rw [mem_addChain] at hmem'
      rcases hmem' with hS | rfl | ⟨i, hi1, hi2, rfl⟩
      · exact hst hS
      · rw [hgv] at hu
        simp at hu
      · exact hraw a (List.mem_cons_self a as) (strictPref_take hi1 hi2)
    · by_cases hpp : parentOf a = []
      · rw [processPath_some_root hgv hpp]
        exact hst
      · rw [processPath_some_child hgv hpp]
        intro hmem
        have hmem' :
            p ∈ addAncestors (addToSet st.1 (parentOf a)) (parentOf a) := hmem
        rw [mem_addChain] at hmem'
        have hlen : 1 < a.length := parentOf_ne_nil hpp
        have hpa : parentOf a = a.dropLast := parentOf_eq_dropLast hlen
        rcases hmem' with hS | rfl | ⟨i, hi1, hi2, rfl⟩
        · exact hst hS
        · exact hraw a (List.mem_cons_self a as) (hpa ▸ strictPref_dropLast hlen)
        · rw [hpa] at hi2
          have hi2' : i < a.length - 1 := by
            simpa [List.length_dropLast] using hi2
          refine hraw a (List.mem_cons_self a as) ?_
          rw [hpa, dropLast_take_eq (by omega)]
          exact strictPref_take hi1 (by omega)

end HierarchyParser

/-- C1: the claim asserts that a path carrying a non-empty uid never
appears in the returned paths list even when it is a strict prefix of a
longer non-virtual input path.  Refuted: in the input below, `A\B`
carries uid `u1`, yet processing the non-virtual record `A\B\C`
unconditionally adds all its ancestors (hierarchy_parser.py lines
166-168), so `["A", "B"]` is in the returned list. -/
theorem claim_C1_cex :
    getVal? (HierarchyParser.buildPathToUid [("A\\B", "u1"), ("A\\B\\C", "")])
        ["A", "B"] = some "u1" ∧
    "u1" ≠ "" ∧
    ["A", "B"] ∈ (HierarchyParser.parse [("A\\B", "u1"), ("A\\B\\C", "")]).1 := by
  refine ⟨by decide, by decide, by decide⟩

/-- C1 (amended): a path that carries its own non-empty externalId is never
added to `paths_to_create` by its own record; it can appear in the returned
list only as a strict prefix of another raw input path.  Hence a virtual
path that is not a strict prefix of any raw input path is not in the
returned list. -/
theorem claim_C1_thm (lines : List (String × String)) (p : SegPath) (u : String)
    (hu : getVal? (HierarchyParser.buildPathToUid lines) p = some u)
    (hnp : ∀ q ∈ HierarchyParser.allRawPaths lines, ¬ HierarchyParser.strictPref p q) :
    p ∉ (HierarchyParser.parse lines).1 := by
  unfold HierarchyParser.parse
  exact HierarchyParser.foldl_processPath_skip _ _ _ _ (by simp [hu]) hnp (by simp)

/-- Witness for C1 (amended) at a concrete input: `A\B` carries uid `u1`
and is a strict prefix of no other raw path, so it is absent from the
result. -/
theorem claim_C1_witness :
    getVal? (HierarchyParser.buildPathToUid [("A\\B", "u1")]) ["A", "B"] =
        some "u1" ∧
    ["A", "B"] ∉ (HierarchyParser.parse [("A\\B", "u1")]).1 :=
  ⟨by decide, claim_C1_thm [("A\\B", "u1")] ["A", "B"] "u1" (by decide)
    (by decide)⟩

/-- C4: the claim asserts the returned paths list is sorted
lexicographically by segment tuple before being returned.  Refuted: the
source (hierarchy_parser.py line 170) returns `list(paths_to_create)`
without sorting; with set iteration modelled as first-insertion order the
input below returns `[["B"], ["A"]]`, which is not lexicographically
sorted.  (CPython set iteration order is hash-dependent and unsorted in
general, so no sorted order is guaranteed either way.) -/
theorem claim_C4_cex :
    (HierarchyParser.parse [("B", ""), ("A", "")]).1 = [["B"], ["A"]] ∧
    ¬ lexSorted (HierarchyParser.parse [("B", ""), ("A", "")]).1 := by
  refine ⟨by decide, by decide⟩

/-- C4 (amended): the resolver returns `list(paths_to_create)` without
sorting; the returned list is duplicate-free (and, under the deterministic
insertion-order model of set iteration used here, reproducible), but no
lexicographic sort is applied before returning. -/
theorem claim_C4_thm (lines : List (String × String)) :
    (HierarchyParser.parse lines).1.Nodup := by
  unfold HierarchyParser.parse
  exact HierarchyParser.foldl_processPath_nodup _ _ _ (by simp)

/-- C6: ancestor closure — every non-empty strict prefix of a returned
path is itself returned (the hypothesis that the prefix carries no
externalId is not even needed: the source adds all ancestors
unconditionally). -/
theorem claim_C6_thm (lines : List (String × String)) (p q : SegPath)
    (hp : p ∈ (HierarchyParser.parse lines).1) (hq : q ≠ [])
    (hqp : HierarchyParser.strictPref q p)
    (hvirt : getVal? (HierarchyParser.buildPathToUid lines) q = none) :
    q ∈ (HierarchyParser.parse lines).1 := by
  unfold HierarchyParser.parse at hp ⊢
  exact HierarchyParser.foldl_processPath_prefClosed _ _ _
    (by intro x hx; simp at hx) p hp q hq hqp

/-- Witness for C6: with input `A\B` alone, `["A", "B"]` is returned and
its strict prefix `["A"]` is returned as well. -/
theorem claim_C6_witness :
    ["A", "B"] ∈ (HierarchyParser.parse [("A\\B", "")]).1 ∧
    ["A"] ∈ (HierarchyParser.parse [("A\\B", "")]).1 :=
  ⟨by decide, claim_C6_thm [("A\\B", "")] ["A", "B"] ["A"] (by decide)
    (by decide) (by decide) (by decide)⟩

/-- C9: a record whose path has length 1 and which carries a non-empty
externalId registers its path in `path_to_uid`, and the processing step
for a registered length-1 path leaves the accumulator unchanged: nothing
is added to `paths_to_create` or to `external_children` (only a warning is
logged, hierarchy_parser.py lines 159-161), and no error is raised (the
embedded step is a total function). -/
theorem claim_C9_thm (lines : List (String × String)) (s u : String)
    (hmem : (s, u) ∈ lines) (hu : u ≠ "")
    (hlen : (HierarchyParser.splitLine s).length = 1) :
    (getVal? (HierarchyParser.buildPathToUid lines)
        (HierarchyParser.splitLine s)).isSome ∧
    ∀ (ptu : List (SegPath × String))
      (st : List SegPath × List (SegPath × List String)),
      (getVal? ptu (HierarchyParser.splitLine s)).isSome →
      HierarchyParser.processPath ptu st (HierarchyParser.splitLine s) = st := by
  constructor
  · unfold HierarchyParser.buildPathToUid
    have hne : HierarchyParser.splitLine s ≠ [] := by
      intro he
      rw [he] at hlen
      simp at hlen
    have main :
        ∀ (ls : List (String × String)) (m : List (SegPath × String)),
          ((getVal? m (HierarchyParser.splitLine s)).isSome ∨ (s, u) ∈ ls) →
          (getVal? (ls.foldl
            (fun m lu =>
              if HierarchyParser.splitLine lu.1 ≠ [] ∧ lu.2 ≠ "" then
                updMap m (HierarchyParser.splitLine lu.1) lu.2
              else m) m) (HierarchyParser.splitLine s)).isSome := by
      intro ls
      induction ls with
      | nil =>
        intro m hm
        rcases hm with hm | hm
        · exact hm
        · simp at hm
      | cons a as ih =>
        intro m hm
        rw [List.foldl_cons]
        rcases hm with hm | hm
        · refine ih _ (Or.inl ?_)
          split
          · exact isSome_getVal?_updMap _ _ _ _ hm
          · exact hm
        · rcases List.mem_cons.mp hm with rfl | hm'
          · refine ih _ (Or.inl ?_)
            rw [if_pos ⟨hne, hu⟩, getVal?_updMap, if_pos rfl]
            simp
          · exact ih _ (Or.inr hm')
    exact main lines [] (Or.inr hmem)
  · intro ptu st h
    obtain ⟨uid, hget⟩ := Option.isSome_iff_exists.mp h
    have hpp : HierarchyParser.parentOf (HierarchyParser.splitLine s) = [] := by
      unfold HierarchyParser.parentOf
      rw [hlen]
      simp
    exact HierarchyParser.processPath_some_root hget hpp

/-- Witness for C9 at the spec's own example: the root-level record
`("X\", "999")`. -/
theorem claim_C9_witness :
    (("X\\", "999") ∈ [("X\\", "999")] ∧ "999" ≠ "" ∧
      (HierarchyParser.splitLine "X\\").length = 1) ∧
    ((getVal? (HierarchyParser.buildPathToUid [("X\\", "999")])
        (HierarchyParser.splitLine "X\\")).isSome ∧
      ∀ (ptu : List (SegPath × String))
        (st : List SegPath × List (SegPath × List String)),
        (getVal? ptu (HierarchyParser.splitLine "X\\")).isSome →
        HierarchyParser.processPath ptu st (HierarchyParser.splitLine "X\\") = st) :=
  ⟨⟨by decide, by decide, by decide⟩,
   claim_C9_thm [("X\\", "999")] "X\\" "999" (by decide) (by decide) (by decide)⟩

namespace XMLGenerator

theorem mem_dedupF {l seen : List SegPath} {x : SegPath} :
    x ∈ dedupF l seen ↔ x ∈ l ∧ x ∉ seen := by
  induction l generalizing seen with
  | nil => simp [dedupF]
  | cons a as ih =>
    by_cases h : a ∈ seen
    · rw [dedupF, if_pos h, ih]
      constructor
      · rintro ⟨hx, hn⟩
        exact ⟨List.mem_cons_of_mem _ hx, hn⟩
      · rintro ⟨hx, hn⟩
        rcases List.mem_cons.mp hx with rfl | hx'
        · exact absurd h hn
        · exact ⟨hx', hn⟩
    · rw [dedupF, if_neg h]
      by_cases hxa : x = a
      · subst hxa
        simp [h]
      · rw [List.mem_cons]
        simp only [hxa, false_or]
        rw [ih]
        simp [List.mem_cons, hxa]

theorem mem_idDomain {paths : List SegPath} {x : SegPath} :
    x ∈ idDomain paths ↔ x ∈ paths := by
  unfold idDomain
  rw [mem_dedupF]
  simp

theorem nodup_dedupF (l seen : List SegPath) : (dedupF l seen).Nodup := by
  induction l generalizing seen with
  | nil => simp [dedupF]
  | cons a as ih =>
    by_cases h : a ∈ seen
    · rw [dedupF, if_pos h]
      exact ih seen
    · rw [dedupF, if_neg h]
      refine List.Nodup.cons ?_ (ih (a :: seen))
      intro hmem
      exact (mem_dedupF.mp hmem).2 (List.mem_cons_self a seen)

theorem dedupF_sub_nil {l s : List SegPath} (h : ∀ x ∈ l, x ∈ s) :
    dedupF l s = [] := by
  induction l with
  | nil => rfl
  | cons a as ih =>
    rw [dedupF, if_pos (h a (List.mem_cons_self a as))]
    exact ih (fun x hx => h x (List.mem_cons_of_mem _ hx))

theorem dedupF_append_absorb {l extra s : List SegPath}
    (h : ∀ x ∈ extra, x ∈ l ∨ x ∈ s) : dedupF (l ++ extra) s = dedupF l s := by
  induction l generalizing s with
  | nil =>
    rw [List.nil_append]
    exact dedupF_sub_nil (fun x hx => ((h x hx).resolve_left (by simp)))
  | cons a as ih =>
    rw [List.cons_append]
    by_cases ha : a ∈ s
    · rw [dedupF, if_pos ha, dedupF, if_pos ha]
      refine ih ?_
      intro x hx
      rcases h x hx with hx' | hx'
      · rcases List.mem_cons.mp hx' with rfl | hx''
        · exact Or.inr ha
        · exact Or.inl hx''
      · exact Or.inr hx'
    · rw [dedupF, if_neg ha, dedupF, if_neg ha]
      congr 1
      refine ih ?_
      intro x hx
      rcases h x hx with hx' | hx'
      · rcases List.mem_cons.mp hx' with rfl | hx''
        · exact Or.inr (List.mem_cons_self _ _)
        · exact Or.inl hx''
      · exact Or.inr (List.mem_cons_of_mem _ hx')

theorem idxOf_inj {l : List SegPath} {p q : SegPath} (hp : p ∈ l) (hq : q ∈ l)
    (h : idxOf l p = idxOf l q) : p = q := by
  induction l with
  | nil => cases hp
  | cons x xs ih =>
    by_cases hxp : x = p <;> by_cases hxq : x = q
    · exact hxp ▸ hxq
    · rw [idxOf, if_pos hxp, idxOf, if_neg hxq] at h
      exact absurd h.symm (Nat.succ_ne_zero _)
    · rw [idxOf, if_neg hxp, idxOf, if_pos hxq] at h
      exact absurd h (Nat.succ_ne_zero _)
    · rw [idxOf, if_neg hxp, idxOf, if_neg hxq] at h
      have hp' : p ∈ xs := by
        rcases List.mem_cons.mp hp with rfl | hp'
        · exact absurd rfl hxp
        · exact hp'
      have hq' : q ∈ xs := by
        rcases List.mem_cons.mp hq with rfl | hq'
        · exact absurd rfl hxq
        · exact hq'
      exact ih hp' hq' (Nat.succ_injective h)

theorem str_append_left_cancel {s x y : String} (h : s ++ x = s ++ y) :
    x = y := by
  apply String.ext
  have hd := congrArg String.data h
  rw [String.data_append, String.data_append] at hd
  exact List.append_cancel_left hd

/-- Identifier assignment is injective whenever the underlying token
supplier is. -/
theorem idOf_inj_on {g : Nat → String} {paths : List SegPath}
    (hg : Function.Injective g) {p q : SegPath} (hp : p ∈ paths)
    (hq : q ∈ paths) (h : idOf g paths p = idOf g paths q) : p = q := by
  unfold idOf at h
  exact idxOf_inj (mem_idDomain.mpr hp) (mem_idDomain.mpr hq)
    (hg (str_append_left_cancel h))

end XMLGenerator

namespace XMLGenerator

theorem getVal?_append {α : Type} (m₁ m₂ : List (SegPath × α)) (k : SegPath) :
    getVal? (m₁ ++ m₂) k =
      match getVal? m₁ k with
      | some v => some v
      | none => getVal? m₂ k := by
  induction m₁ with
  | nil => simp [getVal?]
  | cons kv rest ih =>
    obtain ⟨k₀, v₀⟩ := kv
    by_cases h : k₀ = k
    · simp [getVal?, h]
    · simp [getVal?, h, ih]

theorem getVal?_append_some {α : Type} {m₁ m₂ : List (SegPath × α)}
    {k : SegPath} {v : α} (h : getVal? m₁ k = some v) :
    getVal? (m₁ ++ m₂) k = some v := by
  rw [getVal?_append, h]

theorem getVal?_append_none {α : Type} {m₁ m₂ : List (SegPath × α)}
    {k : SegPath} (h : getVal? m₁ k = none) :
    getVal? (m₁ ++ m₂) k = getVal? m₂ k := by
  rw [getVal?_append, h]

theorem addChildEdge_eq_of_mem {cm : List (SegPath × List SegPath)}
    {parent child : SegPath} {cs₀ : List SegPath}
    (hcc : getVal? cm parent = some cs₀) (hmem : child ∈ cs₀) :
    addChildEdge cm parent child = cm := by
  unfold addChildEdge
  rw [hcc]
  simp [hmem]

theorem addChildEdge_eq_of_not_mem {cm : List (SegPath × List SegPath)}
    {parent child : SegPath} {cs₀ : List SegPath}
    (hcc : getVal? cm parent = some cs₀) (hmem : child ∉ cs₀) :
    addChildEdge cm parent child = updMap cm parent (cs₀ ++ [child]) := by
  unfold addChildEdge
  rw [hcc]
  simp [hmem]

theorem addChildEdge_eq_of_none {cm : List (SegPath × List SegPath)}
    {parent child : SegPath} (hcc : getVal? cm parent = none) :
    addChildEdge cm parent child = cm ++ [(parent, [child])] := by
  unfold addChildEdge
  rw [hcc]

theorem take_succ_dropLast {path : SegPath} {i : Nat} (h2 : i + 1 ≤ path.length) :
    (path.take (i + 1)).dropLast = path.take i := by
  have hlen : (path.take (i + 1)).length = i + 1 := by
    simp [List.length_take]
    omega
  rw [List.dropLast_eq_take, hlen, Nat.add_sub_cancel, List.take_take,
    inf_eq_left.mpr (by omega : i ≤ i + 1)]

theorem mapsInv_edgeStep {paths : List SegPath} {path : SegPath}
    {st2 : List (SegPath × List SegPath) × List (SegPath × SegPath)}
    {i : Nat} (hi1 : 1 ≤ i) (hi2 : i + 1 ≤ path.length)
    (hinv : mapsInv paths st2) : mapsInv paths (edgeStep paths path st2 i) := by
  obtain ⟨hcm, hpm⟩ := hinv
  unfold edgeStep
  by_cases hcond : path.take i ∈ paths ∧ path.take (i + 1) ∈ paths
  · rw [if_pos hcond]
    constructor
    · intro k cs hk
      have hk' :
          getVal? (addChildEdge st2.1 (path.take i) (path.take (i + 1))) k =
            some cs := hk
      rcases hcc : getVal? st2.1 (path.take i) with _ | cs₀
      · rw [addChildEdge_eq_of_none hcc] at hk'
        rcases hk2 : getVal? st2.1 k with _ | cs₁
        · rw [getVal?_append_none hk2] at hk'
          simp only [getVal?] at hk'
          by_cases hke : path.take i = k
          · rw [if_pos hke] at hk'
            cases hk'
            exact ⟨fun x hx => by
              rcases List.mem_singleton.mp hx with rfl
              exact hcond.2, List.nodup_singleton _⟩
          · rw [if_neg hke] at hk'
            cases hk'
        · rw [getVal?_append_some hk2] at hk'
          cases hk'
          exact hcm k cs hk2
      · by_cases hmem : path.take (i + 1) ∈ cs₀
        · rw [addChildEdge_eq_of_mem hcc hmem] at hk'
          exact hcm k cs hk'
        · rw [addChildEdge_eq_of_not_mem hcc hmem, getVal?_updMap] at hk'
          by_cases hke : path.take i = k
          · rw [if_pos hke] at hk'
            cases hk'
            obtain ⟨hsub₀, hnd₀⟩ := hcm _ _ hcc
            refine ⟨?_, ?_⟩
            · intro x hx
              rcases List.mem_append.mp hx with hx' | hx'
              · exact hsub₀ x hx'
              · rcases List.mem_singleton.mp hx' with rfl
                exact hcond.2
            · rw [List.nodup_append]
              refine ⟨hnd₀, List.nodup_singleton _, ?_⟩
              intro a ha ha'
              rcases List.mem_singleton.mp ha' with rfl
              exact hmem ha
          · rw [if_neg hke] at hk'
            exact hcm k cs hk'
    · intro k v hk
      have hk' :
          getVal? (updMap st2.2 (path.take (i + 1)) (path.take i)) k =
            some v := hk
      rw [getVal?_updMap] at hk'
      by_cases hke : path.take (i + 1) = k
      · subst hke
        rw [if_pos rfl] at hk'
        cases hk'
        have hlen : (path.take (i + 1)).length = i + 1 := by
          simp [List.length_take]
          omega
        refine ⟨by omega, hcond.2, ?_, ?_⟩
        · rw [take_succ_dropLast hi2]
        · rw [take_succ_dropLast hi2]
          exact hcond.1
      · rw [if_neg hke] at hk'
        exact hpm k v hk'
  · rw [if_neg hcond]
    exact ⟨hcm, hpm⟩

end XMLGenerator


namespace XMLGenerator

theorem mapsInv_pathEdges {paths : List SegPath} {path : SegPath}
    {st : List (SegPath × List SegPath) × List (SegPath × SegPath)}
    (hinv : mapsInv paths st) : mapsInv paths (pathEdges paths st path) := by
  unfold pathEdges
  have hrange : ∀ i ∈ List.range' 1 (path.length - 1),
      1 ≤ i ∧ i + 1 ≤ path.length := by
    intro i hi
    rw [List.mem_range'_1] at hi
    omega
  revert hrange
  generalize List.range' 1 (path.length - 1) = l
  intro hrange
  induction l generalizing st with
  | nil => exact hinv
  | cons a as ih =>
    rw [List.foldl_cons]
    exact ih
      (mapsInv_edgeStep (hrange a (List.mem_cons_self a as)).1
        (hrange a (List.mem_cons_self a as)).2 hinv)
      (fun i hi => hrange i (List.mem_cons_of_mem _ hi))

theorem buildMaps_inv (paths : List SegPath) :
    mapsInv paths (buildMaps paths) := by
  have main : ∀ (l' : List SegPath)
      (st : List (SegPath × List SegPath) × List (SegPath × SegPath)),
      mapsInv paths st → mapsInv paths (l'.foldl (pathEdges paths) st) := by
    intro l'
    induction l' with
    | nil => exact fun st h => h
    | cons a as ih =>
      intro st h
      rw [List.foldl_cons]
      exact ih _ (mapsInv_pathEdges h)
  exact main paths ([], [])
    ⟨(by intro k cs h; cases h), (by intro k v h; cases h)⟩

theorem childrenOf_cmOf_sub {paths : List SegPath} {p x : SegPath}
    (hx : x ∈ childrenOf (cmOf paths) p) : x ∈ paths := by
  unfold childrenOf at hx
  rcases h : getVal? (cmOf paths) p with _ | cs
  · rw [h] at hx
    simp at hx
  · rw [h] at hx
    simp at hx
    exact ((buildMaps_inv paths).1 p cs h).1 x hx

theorem childrenOf_cmOf_nodup {paths : List SegPath} {p : SegPath} :
    (childrenOf (cmOf paths) p).Nodup := by
  unfold childrenOf
  rcases h : getVal? (cmOf paths) p with _ | cs
  · simp
  · simp
    exact ((buildMaps_inv paths).1 p cs h).2

theorem isSome_getVal?_updMap_self {α : Type} (m : List (SegPath × α))
    (k : SegPath) (v : α) : (getVal? (updMap m k v) k).isSome := by
  rw [getVal?_updMap, if_pos rfl]
  rfl

theorem edgeStep_pm_isSome {paths : List SegPath} {path : SegPath}
    {st2 : List (SegPath × List SegPath) × List (SegPath × SegPath)}
    {p : SegPath} {i : Nat} (h : (getVal? st2.2 p).isSome) :
    (getVal? (edgeStep paths path st2 i).2 p).isSome := by
  unfold edgeStep
  split
  · exact isSome_getVal?_updMap _ _ _ _ h
  · exact h

theorem pathEdges_pm_isSome {paths : List SegPath} {path : SegPath}
    {st : List (SegPath × List SegPath) × List (SegPath × SegPath)}
    {p : SegPath} (h : (getVal? st.2 p).isSome) :
    (getVal? (pathEdges paths st path).2 p).isSome := by
  unfold pathEdges
  generalize List.range' 1 (path.length - 1) = l
  induction l generalizing st with
  | nil => exact h
  | cons a as ih =>
    rw [List.foldl_cons]
    exact ih (edgeStep_pm_isSome h)

theorem foldl_pathEdges_pm_isSome {paths : List SegPath} (l : List SegPath)
    {st : List (SegPath × List SegPath) × List (SegPath × SegPath)}
    {p : SegPath} (h : (getVal? st.2 p).isSome) :
    (getVal? ((l.foldl (pathEdges paths) st)).2 p).isSome := by
  induction l generalizing st with
  | nil => exact h
  | cons a as ih =>
    rw [List.foldl_cons]
    exact ih (pathEdges_pm_isSome h)

theorem pmOf_isSome {paths : List SegPath} {p : SegPath} (hp : p ∈ paths)
    (hlen : 2 ≤ p.length) (hd : p.dropLast ∈ paths) :
    (getVal? (pmOf paths) p).isSome := by
  obtain ⟨l₁, l₂, hsplit⟩ := List.append_of_mem hp
  subst hsplit
  unfold pmOf buildMaps
  rw [List.foldl_append, List.foldl_cons]
  apply foldl_pathEdges_pm_isSome
  unfold pathEdges
  rw [show p.length - 1 = (p.length - 2) + 1 from by omega, List.range'_concat,
    List.foldl_append, List.foldl_cons, List.foldl_nil]
  rw [show 1 + 1 * (p.length - 2) = p.length - 1 from by omega]
  unfold edgeStep
  have ht1 : p.take (p.length - 1) = p.dropLast := (List.dropLast_eq_take p).symm
  have ht2 : p.take (p.length - 1 + 1) = p := by
    rw [show p.length - 1 + 1 = p.length from by omega]
    exact List.take_length p
  rw [ht1, ht2, if_pos ⟨hd, hp⟩]
  exact isSome_getVal?_updMap_self _ _ _

/-- Full characterization of the reconstructed `parent_map`: `p` is bound
exactly when it is a member of length ≥ 2 whose immediate prefix is also a
member, and then it is bound to that immediate prefix. -/
theorem getVal?_pmOf {paths : List SegPath} {p v : SegPath} :
    getVal? (pmOf paths) p = some v ↔
      2 ≤ p.length ∧ p ∈ paths ∧ v = p.dropLast ∧ p.dropLast ∈ paths := by
  constructor
  · exact fun h => (buildMaps_inv paths).2 p v h
  · rintro ⟨h1, h2, rfl, h3⟩
    obtain ⟨v', hv⟩ := Option.isSome_iff_exists.mp (pmOf_isSome h2 h1 h3)
    rw [hv, ((buildMaps_inv paths).2 p v' hv).2.2.1]

end XMLGenerator

namespace XMLGenerator

theorem foldl_childStep_sub {g : Nat → String} {paths : List SegPath} :
    ∀ (cs : List SegPath) (st : List String × List String × List SegPath),
      ∀ x ∈ (cs.foldl (childStep g paths) st).2.2, x ∈ st.2.2 ∨ x ∈ cs := by
  intro cs
  induction cs with
  | nil =>
    intro st x hx
    exact Or.inl hx
  | cons c cs' ih =>
    intro st x hx
    rw [List.foldl_cons] at hx
    rcases ih (childStep g paths st c) x hx with hx' | hx'
    · unfold childStep at hx'
      by_cases h1 : c ∈ idDomain paths
      · rw [if_pos h1] at hx'
        by_cases h2 : idOf g paths c ∈ st.1
        · rw [if_pos h2] at hx'
          exact Or.inl hx'
        · rw [if_neg h2] at hx'
          have hx'' : x ∈ st.2.2 ++ [c] := hx'
          rcases List.mem_append.mp hx'' with h | h
          · exact Or.inl h
          · rcases List.mem_singleton.mp h with rfl
            exact Or.inr (List.mem_cons_self _ _)
      · rw [if_neg h1] at hx'
        exact Or.inl hx'
    · exact Or.inr (List.mem_cons_of_mem _ hx')

theorem kids_sub {g : Nat → String} {paths : List SegPath}
    {cm : List (SegPath × List SegPath)} {p x : SegPath}
    (hcm : ∀ y ∈ childrenOf cm p, y ∈ paths) (hx : x ∈ kids g paths cm p) :
    x ∈ paths := by
  unfold kids at hx
  by_cases het : elementType cm p = "cim:AssetContainer"
  · rw [if_pos het] at hx
    have hx' : x ∈ ((childrenOf cm p).foldl (childStep g paths)
        ([], [], [])).2.2 := hx
    rcases foldl_childStep_sub (childrenOf cm p) ([], [], []) x hx' with h | h
    · cases h
    · exact hcm x h
  · rw [if_neg het] at hx
    cases hx

/-- The breadth-first loop, on a queue of known paths whose unvisited
members cover `paths`, never hits the `KeyError` branch and emits exactly
the blocks of the first-occurrence ordering of the pending queue. -/
theorem genLoop_ok (g : Nat → String) (paths : List SegPath)
    (cm : List (SegPath × List SegPath)) (pm : List (SegPath × SegPath))
    (pum : List (SegPath × String)) (pu : String)
    (cck : List (SegPath × String))
    (hkids : ∀ c, ∀ x ∈ kids g paths cm c, x ∈ paths) :
    ∀ (queue processed : List SegPath),
      (∀ x ∈ queue, x ∈ paths) →
      (∀ x ∈ paths, x ∈ queue ∨ x ∈ processed) →
      genLoop g paths cm pm pum pu cck queue processed =
        .ok ((dedupF queue processed).flatMap
          (emitLines g paths cm pm pum pu cck)) := by
  intro queue processed
  induction queue, processed using genLoop.induct g paths cm pm pum pu cck with
  | case1 processed =>
    intro _ _
    simp [genLoop, dedupF]
  | case2 c tail processed hmem ih =>
    intro hq hcov
    rw [genLoop, if_pos hmem, dedupF, if_pos hmem]
    refine ih (fun x hx => hq x (List.mem_cons_of_mem _ hx)) ?_
    intro x hx
    rcases hcov x hx with hx' | hx'
    · rcases List.mem_cons.mp hx' with rfl | hx''
      · exact Or.inr hmem
      · exact Or.inl hx''
    · exact Or.inr hx'
  | case3 c tail processed hmem hc rest heq ih =>
    intro hq hcov
    have hrec := ih
      (by
        intro x hx
        rcases List.mem_append.mp hx with hx' | hx'
        · exact hq x (List.mem_cons_of_mem _ hx')
        · exact hkids c x hx')
      (by
        intro x hx
        rcases hcov x hx with hx' | hx'
        · rcases List.mem_cons.mp hx' with rfl | hx''
          · exact Or.inr (List.mem_cons_self _ _)
          · exact Or.inl (List.mem_append.mpr (Or.inl hx''))
        · exact Or.inr (List.mem_cons_of_mem _ hx'))
    rw [heq] at hrec
    have hrest := Except.ok.inj hrec
    rw [genLoop, if_neg hmem, dif_pos hc, heq, hrest]
    rw [dedupF, if_neg hmem]
    rw [dedupF_append_absorb
      (by
        intro x hx
        have hx' : x ∈ paths := hkids c x hx
        rcases hcov x hx' with hx'' | hx''
        · rcases List.mem_cons.mp hx'' with rfl | hx3
          · exact Or.inr (List.mem_cons_self _ _)
          · exact Or.inl hx3
        · exact Or.inr (List.mem_cons_of_mem _ hx''))]
    simp
  | case4 c tail processed hmem hc e heq ih =>
    intro hq hcov
    have hrec := ih
      (by
        intro x hx
        rcases List.mem_append.mp hx with hx' | hx'
        · exact hq x (List.mem_cons_of_mem _ hx')
        · exact hkids c x hx')
      (by
        intro x hx
        rcases hcov x hx with hx' | hx'
        · rcases List.mem_cons.mp hx' with rfl | hx''
          · exact Or.inr (List.mem_cons_self _ _)
          · exact Or.inl (List.mem_append.mpr (Or.inl hx''))
        · exact Or.inr (List.mem_cons_of_mem _ hx'))
    rw [heq] at hrec
    cases hrec
  | case5 c tail processed hmem hc =>
    intro hq hcov
    exact absurd (mem_idDomain.mpr (hq c (List.mem_cons_self c tail))) hc

end XMLGenerator

namespace XMLGenerator

/-- On a non-empty paths list the generator never fails: the document is
the fixed header, the blocks of all distinct paths in first-occurrence
order, and the closing tag. -/
theorem generateLines_ok (cfg : Config) (g : Nat → String)
    (paths : List SegPath) (ec : List (SegPath × List String)) (pu : String)
    (cck : List (SegPath × String)) (pum : List (SegPath × String))
    (vc : List SegPath) (hne : paths ≠ []) :
    generateLines cfg g paths ec pu cck pum vc =
      .ok (headerLines cfg ++
        (idDomain paths).flatMap
          (emitLines g paths (cmOf paths) (pmOf paths) pum pu cck) ++
        ["</rdf:RDF>"]) := by
  unfold generateLines
  rw [if_neg hne]
  rw [genLoop_ok g paths (cmOf paths) (pmOf paths) pum pu cck
    (fun c x hx => kids_sub (fun y hy => childrenOf_cmOf_sub hy) hx)
    paths [] (fun x hx => hx) (fun x hx => Or.inl hx)]
  rfl

theorem parentLine_mem_emitLines (g : Nat → String) (paths : List SegPath)
    (cm : List (SegPath × List SegPath)) (pm : List (SegPath × SegPath))
    (pum : List (SegPath × String)) (pu : String)
    (cck : List (SegPath × String)) (p : SegPath) :
    parentLine (parentResource g paths pm pum pu p) ∈
      emitLines g paths cm pm pum pu cck p := by
  unfold emitLines
  simp

end XMLGenerator

/-- C2: parent-reference resolution priority.  For every path in the
paths list the generated document contains that path's ParentObject line,
whose reference is resolved in strict priority order: root paths get the
supplied root parent identifier; then a `parent_uid_map` binding, rendered
as `"#_" + externalId`; then the freshly assigned identifier of the
immediate prefix when that prefix is itself in the paths list; otherwise
the root parent identifier, without failing. -/
theorem claim_C2_thm (cfg : XMLGenerator.Config) (g : Nat → String)
    (paths : List SegPath) (ec : List (SegPath × List String)) (pu : String)
    (cck : List (SegPath × String)) (pum : List (SegPath × String))
    (vc : List SegPath) (p : SegPath)
    (hnonempty : ∀ q ∈ paths, q ≠ []) (hp : p ∈ paths) :
    ∃ L, XMLGenerator.generateLines cfg g paths ec pu cck pum vc = .ok L ∧
      XMLGenerator.parentLine
        (XMLGenerator.parentResource g paths (XMLGenerator.pmOf paths) pum pu p)
        ∈ L ∧
      (p.length = 1 →
        XMLGenerator.parentResource g paths (XMLGenerator.pmOf paths) pum pu p
          = pu) ∧
      (∀ u, p.length ≠ 1 → getVal? pum p = some u →
        XMLGenerator.parentResource g paths (XMLGenerator.pmOf paths) pum pu p
          = "#_" ++ u) ∧
      (p.length ≠ 1 → getVal? pum p = none → 2 ≤ p.length →
        p.dropLast ∈ paths →
        XMLGenerator.parentResource g paths (XMLGenerator.pmOf paths) pum pu p
          = XMLGenerator.idOf g paths p.dropLast) ∧
      (p.length ≠ 1 → getVal? pum p = none →
        (¬ 2 ≤ p.length ∨ p.dropLast ∉ paths) →
        XMLGenerator.parentResource g paths (XMLGenerator.pmOf paths) pum pu p
          = pu) := by
  have hne : paths ≠ [] := by
    intro h
    rw [h] at hp
    cases hp
  refine ⟨_, XMLGenerator.generateLines_ok cfg g paths ec pu cck pum vc hne,
    ?_, ?_, ?_, ?_, ?_⟩
  · refine List.mem_append.mpr (Or.inl (List.mem_append.mpr (Or.inr ?_)))
    refine List.mem_flatMap.mpr ⟨p, XMLGenerator.mem_idDomain.mpr hp, ?_⟩
    exact XMLGenerator.parentLine_mem_emitLines g paths _ _ pum pu cck p
  · intro h1
    simp [XMLGenerator.parentResource, h1]
  · intro u h1 h2
    simp [XMLGenerator.parentResource, h1, h2]
  · intro h1 h2 h3 h4
    have hpm : getVal? (XMLGenerator.pmOf paths) p = some p.dropLast :=
      XMLGenerator.getVal?_pmOf.mpr ⟨h3, hp, rfl, h4⟩
    simp [XMLGenerator.parentResource, h1, h2, hpm,
      XMLGenerator.mem_idDomain.mpr h4]
  · intro h1 h2 h3
    have hpm : getVal? (XMLGenerator.pmOf paths) p = none := by
      rcases h : getVal? (XMLGenerator.pmOf paths) p with _ | v
      · rfl
      · obtain ⟨hl, _, _, hd⟩ := XMLGenerator.getVal?_pmOf.mp h
        rcases h3 with h3 | h3
        · exact absurd hl h3
        · exact absurd hd h3
    simp [XMLGenerator.parentResource, h1, h2, hpm]

/-- Witness for C2 at the spec's §8 example shape: `(A,B,C)` is bound to
virtual parent `123-456` and its resolved parent reference is
`"#_" ++ "123-456"`. -/
theorem claim_C2_witness :
    (∀ q ∈ [["A"], ["A", "B", "C"]], q ≠ []) ∧
    (["A", "B", "C"] ∈ [["A"], ["A", "B", "C"]]) ∧
    XMLGenerator.parentResource gConst [["A"], ["A", "B", "C"]]
      (XMLGenerator.pmOf [["A"], ["A", "B", "C"]])
      [(["A", "B", "C"], "123-456")] "#p" ["A", "B", "C"] = "#_" ++ "123-456" :=
  ⟨by decide, by decide,
   (claim_C2_thm cfg0 gConst [["A"], ["A", "B", "C"]] [] "#p" []
      [(["A", "B", "C"], "123-456")] [] ["A", "B", "C"] (by decide)
      (by decide)).choose_spec.2.2.2.1 "123-456" (by decide) (by decide)⟩

/-- C3: the claim asserts that external children of a persisted parent are
emitted as additional ChildObjects links.  Refuted: the emission block for
`external_children` (xml_generator.py lines 214-220) is commented out and
the docstring marks the parameter as unused, so for the input below —
parent `["A"]` with external child `u9` — the generated document contains
no ChildObjects reference to `#_u9` at all. -/
theorem claim_C3_cex :
    XMLGenerator.generateLines cfg0 gConst [["A"]] [(["A"], ["u9"])] "#p"
        [] [] [] = .ok
      ["<?xml version=\"1.0\" encoding=\"utf-8\"?>",
       "<?iec61970-552 version=\"2.0\"?>",
       "<?floatExporter 1?>",
       "<rdf:RDF>",
       "  <md:FullModel rdf:about=\"#_m\">",
       "    <md:Model.created>c</md:Model.created>",
       "    <md:Model.version>v</md:Model.version>",
       "    <me:Model.name>n</me:Model.name>",
       "  </md:FullModel>",
       "  <cim:AssetContainer rdf:about=\"#_X\">",
       "    <cim:IdentifiedObject.name>A</cim:IdentifiedObject.name>",
       "    <me:IdentifiedObject.ParentObject rdf:resource=\"#p\" />",
       "    <cim:Asset.AssetContainer rdf:resource=\"#p\" />",
       "  </cim:AssetContainer>",
       "</rdf:RDF>"] ∧
    "    <me:IdentifiedObject.ChildObjects rdf:resource=\"#_u9\" />" ∉
      ["<?xml version=\"1.0\" encoding=\"utf-8\"?>",
       "<?iec61970-552 version=\"2.0\"?>",
       "<?floatExporter 1?>",
       "<rdf:RDF>",
       "  <md:FullModel rdf:about=\"#_m\">",
       "    <md:Model.created>c</md:Model.created>",
       "    <md:Model.version>v</md:Model.version>",
       "    <me:Model.name>n</me:Model.name>",
       "  </md:FullModel>",
       "  <cim:AssetContainer rdf:about=\"#_X\">",
       "    <cim:IdentifiedObject.name>A</cim:IdentifiedObject.name>",
       "    <me:IdentifiedObject.ParentObject rdf:resource=\"#p\" />",
       "    <cim:Asset.AssetContainer rdf:resource=\"#p\" />",
       "  </cim:AssetContainer>",
       "</rdf:RDF>"] := by
  constructor
  · simp [XMLGenerator.generateLines, XMLGenerator.genLoop,
      XMLGenerator.buildMaps, XMLGenerator.cmOf, XMLGenerator.pmOf,
      XMLGenerator.pathEdges, XMLGenerator.idDomain, XMLGenerator.dedupF,
      XMLGenerator.kids, XMLGenerator.elementType, XMLGenerator.childrenOf,
      XMLGenerator.childFold, XMLGenerator.childStep, getVal?,
      XMLGenerator.emitLines, XMLGenerator.idOf, XMLGenerator.idxOf,
      XMLGenerator.parentResource, XMLGenerator.openLine,
      XMLGenerator.nameLine, XMLGenerator.parentLine,
      XMLGenerator.assetLines, XMLGenerator.kksLines,
      XMLGenerator.headerLines, cfg0, gConst]
  · decide

/-- C3 (amended): `external_children` is accepted but completely ignored
by `XMLGenerator.generate`: the generated document is independent of it,
so no external-child reference is ever emitted and no external child is
ever enqueued or materialized. -/
theorem claim_C3_thm (cfg : XMLGenerator.Config) (g : Nat → String)
    (paths : List SegPath) (ec ec' : List (SegPath × List String))
    (pu : String) (cck : List (SegPath × String))
    (pum : List (SegPath × String)) (vc : List SegPath) :
    XMLGenerator.generateLines cfg g paths ec pu cck pum vc =
      XMLGenerator.generateLines cfg g paths ec' pu cck pum vc := rfl

/-- C5: the claim asserts that identifier injectivity is enforced by the
generator itself and would survive a duplicate-returning token generator.
Refuted: `id_map` (xml_generator.py line 109) assigns `"#_" + uuid4()`
per node with no collision check, so under the constant token supplier
the two distinct paths `["A"]` and `["B"]` receive the same identifier
`#_X`, and both emitted elements carry the same `rdf:about`. -/
theorem claim_C5_cex :
    XMLGenerator.idOf gConst [["A"], ["B"]] ["A"] =
      XMLGenerator.idOf gConst [["A"], ["B"]] ["B"] ∧
    (["A"] : SegPath) ≠ ["B"] ∧
    XMLGenerator.generateLines cfg0 gConst [["A"], ["B"]] [] "#p" [] [] [] =
      .ok
      ["<?xml version=\"1.0\" encoding=\"utf-8\"?>",
       "<?iec61970-552 version=\"2.0\"?>",
       "<?floatExporter 1?>",
       "<rdf:RDF>",
       "  <md:FullModel rdf:about=\"#_m\">",
       "    <md:Model.created>c</md:Model.created>",
       "    <md:Model.version>v</md:Model.version>",
       "    <me:Model.name>n</me:Model.name>",
       "  </md:FullModel>",
       "  <cim:AssetContainer rdf:about=\"#_X\">",
       "    <cim:IdentifiedObject.name>A</cim:IdentifiedObject.name>",
       "    <me:IdentifiedObject.ParentObject rdf:resource=\"#p\" />",
       "    <cim:Asset.AssetContainer rdf:resource=\"#p\" />",
       "  </cim:AssetContainer>",
       "  <cim:AssetContainer rdf:about=\"#_X\">",
       "    <cim:IdentifiedObject.name>B</cim:IdentifiedObject.name>",
       "    <me:IdentifiedObject.ParentObject rdf:resource=\"#p\" />",
       "    <cim:Asset.AssetContainer rdf:resource=\"#p\" />",
       "  </cim:AssetContainer>",
       "</rdf:RDF>"] := by
  refine ⟨by decide, by decide, ?_⟩
  simp [XMLGenerator.generateLines, XMLGenerator.genLoop,
    XMLGenerator.buildMaps, XMLGenerator.cmOf, XMLGenerator.pmOf,
    XMLGenerator.pathEdges, XMLGenerator.idDomain, XMLGenerator.dedupF,
    XMLGenerator.kids, XMLGenerator.elementType, XMLGenerator.childrenOf,
    XMLGenerator.childFold, XMLGenerator.childStep, getVal?,
    XMLGenerator.emitLines, XMLGenerator.idOf, XMLGenerator.idxOf,
    XMLGenerator.parentResource, XMLGenerator.openLine,
    XMLGenerator.nameLine, XMLGenerator.parentLine,
    XMLGenerator.assetLines, XMLGenerator.kksLines,
    XMLGenerator.headerLines, cfg0, gConst]

/-- C5 (amended): identifier assignment is injective across the paths of
one `generate` call exactly when the underlying token supplier is
injective; the generator itself adds no enforcement. -/
theorem claim_C5_thm (g : Nat → String) (paths : List SegPath)
    (p q : SegPath) (hg : Function.Injective g) (hp : p ∈ paths)
    (hq : q ∈ paths)
    (h : XMLGenerator.idOf g paths p = XMLGenerator.idOf g paths q) :
    p = q :=
  XMLGenerator.idOf_inj_on hg hp hq h

/-- Witness for C5 (amended) with an injective supplier. -/
theorem claim_C5_witness :
    Function.Injective gInj ∧
    (["A"] : SegPath) ∈ [["A"], ["B"]] ∧ (["B"] : SegPath) ∈ [["A"], ["B"]] ∧
    (["A"] : SegPath) = ["A"] :=
  ⟨fun a b h => by
      have := congrArg (fun s => s.data.length) h
      simpa [gInj] using this,
   by decide, by decide,
   claim_C5_thm gInj [["A"], ["B"]] ["A"] ["A"]
     (fun a b h => by
       have := congrArg (fun s => s.data.length) h
       simpa [gInj] using this)
     (by decide) (by decide) rfl⟩

/-- C10: the pipeline as wired in `main` never reaches emission.  The call
`generator.generate(paths, external_children, parent_uid=parent_uid)`
(main.py line 90) leaves the required positional parameters `cck_map` and
`parent_uid_map` (which have no defaults, xml_generator.py lines 66-67)
unbound, so CPython argument binding raises `TypeError` before the body
runs; the error is caught (main.py line 93) and `main` returns without
ever writing `output.xml` — for every input. -/
theorem claim_C10_thm (cfg : XMLGenerator.Config) (g : Nat → String)
    (lines : List (String × String)) (parentUid : String) :
    MainPy.mainRun cfg g lines parentUid = none := by
  have hb : MainPy.bindCall MainPy.generateParams 2 ["parent_uid"] =
      .error "TypeError: missing required positional arguments" := by rfl
  by_cases h : (HierarchyParser.parse lines).1 = []
  · simp [MainPy.mainRun, h]
  · simp [MainPy.mainRun, h, hb]

namespace XMLGenerator

/-- Under an injective identifier assignment the `added_children`
deduplication never fires: the child loop emits one line per child and
enqueues every child, in order. -/
theorem childFold_eq {g : Nat → String} {paths : List SegPath}
    {cm : List (SegPath × List SegPath)} {p : SegPath}
    (hg : Function.Injective g)
    (hsub : ∀ x ∈ childrenOf cm p, x ∈ paths)
    (hnd : (childrenOf cm p).Nodup) :
    childFold g paths cm p =
      ((childrenOf cm p).map (fun c => childLine (idOf g paths c)),
       childrenOf cm p) := by
  unfold childFold
  have main : ∀ (cs : List SegPath) (A L : List String) (K : List SegPath),
      (∀ x ∈ cs, x ∈ paths) → cs.Nodup → (∀ x ∈ K, x ∈ paths) →
      A = K.map (idOf g paths) → (∀ x ∈ cs, x ∉ K) →
      cs.foldl (childStep g paths) (A, L, K) =
        (A ++ cs.map (idOf g paths),
         L ++ cs.map (fun c => childLine (idOf g paths c)), K ++ cs) := by
    intro cs
    induction cs with
    | nil =>
      intro A L K _ _ _ _ _
      simp
    | cons c cs' ih =>
      intro A L K hsub' hnd' hK hA hdisj
      rw [List.foldl_cons]
      have hcp : c ∈ paths := hsub' c (List.mem_cons_self c cs')
      have hcd : c ∈ idDomain paths := mem_idDomain.mpr hcp
      have hnotinA : idOf g paths c ∉ A := by
        rw [hA]
        intro hmem
        obtain ⟨k, hk, hke⟩ := List.mem_map.mp hmem
        have hkc : k = c := idOf_inj_on hg (hK k hk) hcp hke
        exact hdisj c (List.mem_cons_self c cs') (hkc ▸ hk)
      have hstep : childStep g paths (A, L, K) c =
          (A ++ [idOf g paths c], L ++ [childLine (idOf g paths c)],
           K ++ [c]) := by
        unfold childStep
        rw [if_pos hcd, if_neg hnotinA]
      rw [hstep]
      rw [ih (A ++ [idOf g paths c]) (L ++ [childLine (idOf g paths c)])
        (K ++ [c])
        (fun x hx => hsub' x (List.mem_cons_of_mem _ hx))
        (List.Nodup.of_cons hnd')
        (by
          intro x hx
          rcases List.mem_append.mp hx with h | h
          · exact hK x h
          · rcases List.mem_singleton.mp h with rfl
            exact hcp)
        (by rw [hA, List.map_append, List.map_singleton])
        (by
          intro x hx hxk
          rcases List.mem_append.mp hxk with h | h
          · exact hdisj x (List.mem_cons_of_mem _ hx) h
          · rcases List.mem_singleton.mp h with rfl
            exact (List.nodup_cons.mp hnd').1 hx)]
      simp
  rw [main (childrenOf cm p) [] [] [] hsub hnd
    (by intro x hx; cases hx) (by simp) (by intro x hx hk; cases hk)]
  simp

theorem emitLines_eq_blockT {g : Nat → String} {paths : List SegPath}
    (hg : Function.Injective g) (pm : List (SegPath × SegPath))
    (pum : List (SegPath × String)) (pu : String)
    (cck : List (SegPath × String)) (p : SegPath) :
    emitLines g paths (cmOf paths) pm pum pu cck p =
      blockT (idOf g paths) paths (cmOf paths) pm pum pu cck p := by
  unfold emitLines blockT
  rw [childFold_eq hg (fun x hx => childrenOf_cmOf_sub hx) childrenOf_cmOf_nodup]
  rfl

theorem flatMap_congr_mem {α β : Type} {l : List α} {f f' : α → List β}
    (h : ∀ x ∈ l, f x = f' x) : l.flatMap f = l.flatMap f' := by
  induction l with
  | nil => rfl
  | cons a as ih =>
    rw [List.flatMap_cons, List.flatMap_cons, h a (List.mem_cons_self a as),
      ih (fun x hx => h x (List.mem_cons_of_mem _ hx))]

end XMLGenerator

/-- C8: structural determinism across two runs.  With any two injective
token suppliers, the two generated documents are the same structural
template `docT` — identical category assignments, parent-link topology
and child sets, all fixed by the resolved hierarchy — instantiated at the
two identifier assignments; they can differ only in the literal values of
the generated identifiers. -/
theorem claim_C8_thm (cfg : XMLGenerator.Config) (g1 g2 : Nat → String)
    (paths : List SegPath) (ec : List (SegPath × List String)) (pu : String)
    (cck : List (SegPath × String)) (pum : List (SegPath × String))
    (vc : List SegPath)
    (hg1 : Function.Injective g1) (hg2 : Function.Injective g2)
    (hne : paths ≠ []) (hnonempty : ∀ q ∈ paths, q ≠ []) :
    XMLGenerator.generateLines cfg g1 paths ec pu cck pum vc =
      .ok (XMLGenerator.docT cfg (XMLGenerator.idOf g1 paths) paths
        (XMLGenerator.cmOf paths) (XMLGenerator.pmOf paths) pum pu cck) ∧
    XMLGenerator.generateLines cfg g2 paths ec pu cck pum vc =
      .ok (XMLGenerator.docT cfg (XMLGenerator.idOf g2 paths) paths
        (XMLGenerator.cmOf paths) (XMLGenerator.pmOf paths) pum pu cck) := by
  constructor
  · rw [XMLGenerator.generateLines_ok cfg g1 paths ec pu cck pum vc hne]
    unfold XMLGenerator.docT
    rw [XMLGenerator.flatMap_congr_mem
      (fun p _ => XMLGenerator.emitLines_eq_blockT hg1
        (XMLGenerator.pmOf paths) pum pu cck p)]
  · rw [XMLGenerator.generateLines_ok cfg g2 paths ec pu cck pum vc hne]
    unfold XMLGenerator.docT
    rw [XMLGenerator.flatMap_congr_mem
      (fun p _ => XMLGenerator.emitLines_eq_blockT hg2
        (XMLGenerator.pmOf paths) pum pu cck p)]

/-- Witness for C8 at a concrete two-path hierarchy with an injective
supplier. -/
theorem claim_C8_witness :
    (Function.Injective gInj ∧ ([["A"], ["A", "B"]] : List SegPath) ≠ [] ∧
      (∀ q ∈ [["A"], ["A", "B"]], q ≠ [])) ∧
    (XMLGenerator.generateLines cfg0 gInj [["A"], ["A", "B"]] [] "#p" [] []
        [] =
      .ok (XMLGenerator.docT cfg0 (XMLGenerator.idOf gInj [["A"], ["A", "B"]])
        [["A"], ["A", "B"]] (XMLGenerator.cmOf [["A"], ["A", "B"]])
        (XMLGenerator.pmOf [["A"], ["A", "B"]]) [] "#p" []) ∧
     XMLGenerator.generateLines cfg0 gInj [["A"], ["A", "B"]] [] "#p" [] []
        [] =
      .ok (XMLGenerator.docT cfg0 (XMLGenerator.idOf gInj [["A"], ["A", "B"]])
        [["A"], ["A", "B"]] (XMLGenerator.cmOf [["A"], ["A", "B"]])
        (XMLGenerator.pmOf [["A"], ["A", "B"]]) [] "#p" [])) := by
  have hinj : Function.Injective gInj := fun a b h => by
    have := congrArg (fun s => s.data.length) h
    simpa [gInj] using this
  exact ⟨⟨hinj, by decide, by decide⟩,
    claim_C8_thm cfg0 gInj gInj [["A"], ["A", "B"]] [] "#p" [] [] []
      hinj hinj (by decide) (by decide)⟩

namespace XMLGenerator

theorem ne_of_take5 {s t : String} (h : s.data.take 5 ≠ t.data.take 5) :
    s ≠ t :=
  fun he => h (he ▸ rfl)

theorem data_take_append (a b : String) (h : 5 ≤ a.data.length) :
    (a ++ b).data.take 5 = a.data.take 5 := by
  rw [String.data_append]
  exact List.take_append_of_le_length h

theorem data_len_append_ge (a b : String) :
    a.data.length ≤ (a ++ b).data.length := by
  rw [String.data_append, List.length_append]
  omega

theorem take5_append2 (litA x y : String) (h : 5 ≤ litA.data.length) :
    ((litA ++ x) ++ y).data.take 5 = litA.data.take 5 := by
  rw [data_take_append (litA ++ x) y
    (le_trans h (data_len_append_ge litA x)), data_take_append litA x h]

theorem openLine_take5_C (cid : String) :
    (openLine "cim:AssetContainer" cid).data.take 5 =
      [' ', ' ', '<', 'c', 'i'] := by
  rw [show openLine "cim:AssetContainer" cid =
    ((("  <" ++ "cim:AssetContainer") ++ " rdf:about=\"") ++ cid) ++ "\">"
    from rfl]
  rw [take5_append2 _ cid "\">" (by decide)]
  decide

theorem openLine_take5_G (cid : String) :
    (openLine "me:GenericPSR" cid).data.take 5 =
      [' ', ' ', '<', 'm', 'e'] := by
  rw [show openLine "me:GenericPSR" cid =
    ((("  <" ++ "me:GenericPSR") ++ " rdf:about=\"") ++ cid) ++ "\">"
    from rfl]
  rw [take5_append2 _ cid "\">" (by decide)]
  decide

theorem nameLine_take5 (p : SegPath) :
    (nameLine p).data.take 5 = [' ', ' ', ' ', ' ', '<'] := by
  rw [show nameLine p =
    ("    <cim:IdentifiedObject.name>" ++ p.getLastD "") ++
      "</cim:IdentifiedObject.name>" from rfl]
  rw [take5_append2 _ _ _ (by decide)]
  decide

theorem parentLine_take5 (pr : String) :
    (parentLine pr).data.take 5 = [' ', ' ', ' ', ' ', '<'] := by
  rw [show parentLine pr =
    ("    <me:IdentifiedObject.ParentObject rdf:resource=\"" ++ pr) ++
      "\" />" from rfl]
  rw [take5_append2 _ _ _ (by decide)]
  decide

theorem childLine_take5 (cid : String) :
    (childLine cid).data.take 5 = [' ', ' ', ' ', ' ', '<'] := by
  rw [show childLine cid =
    ("    <me:IdentifiedObject.ChildObjects rdf:resource=\"" ++ cid) ++
      "\" />" from rfl]
  rw [take5_append2 _ _ _ (by decide)]
  decide

theorem assetLines_take5 {et pr : String} {l : String}
    (hl : l ∈ assetLines et pr) :
    l.data.take 5 = [' ', ' ', ' ', ' ', '<'] := by
  unfold assetLines at hl
  by_cases h1 : et = "cim:AssetContainer"
  · rw [if_pos h1] at hl
    rcases List.mem_singleton.mp hl with rfl
    rw [show "    <cim:Asset.AssetContainer rdf:resource=\"" ++ pr ++ "\" />" =
      ("    <cim:Asset.AssetContainer rdf:resource=\"" ++ pr) ++ "\" />"
      from rfl]
    rw [take5_append2 _ _ _ (by decide)]
    decide
  · rw [if_neg h1] at hl
    by_cases h2 : et = "me:GenericPSR"
    · rw [if_pos h2] at hl
      rcases List.mem_singleton.mp hl with rfl
      rw [show "    <cim:PowerSystemResource.Assets rdf:resource=\"" ++ pr ++
          "\" />" =
        ("    <cim:PowerSystemResource.Assets rdf:resource=\"" ++ pr) ++
          "\" />" from rfl]
      rw [take5_append2 _ _ _ (by decide)]
      decide
    · rw [if_neg h2] at hl
      cases hl

theorem kksLines_take5 {cck : List (SegPath × String)} {et : String}
    {p : SegPath} {l : String} (hl : l ∈ kksLines cck et p) :
    l.data.take 5 = [' ', ' ', ' ', ' ', '<'] := by
  unfold kksLines at hl
  rcases h : getVal? cck p with _ | k
  · rw [h] at hl
    cases hl
  · rw [h] at hl
    have hl' : l ∈ (if k ≠ "" then
        (if et = "cim:AssetContainer" then
          ["    <me:IdentifiedObject.mRIDStr>" ++ k ++
            "</me:IdentifiedObject.mRIDStr>"]
        else if et = "me:GenericPSR" then
          ["    <rh:PowerSystemResource.ccsCode>" ++ k ++
            "</rh:PowerSystemResource.ccsCode>"]
        else [])
      else []) := hl
    by_cases hk : k ≠ ""
    · rw [if_pos hk] at hl'
      by_cases h1 : et = "cim:AssetContainer"
      · rw [if_pos h1] at hl'
        rcases List.mem_singleton.mp hl' with rfl
        rw [show "    <me:IdentifiedObject.mRIDStr>" ++ k ++
            "</me:IdentifiedObject.mRIDStr>" =
          ("    <me:IdentifiedObject.mRIDStr>" ++ k) ++
            "</me:IdentifiedObject.mRIDStr>" from rfl]
        rw [take5_append2 _ _ _ (by decide)]
        decide
      · rw [if_neg h1] at hl'
        by_cases h2 : et = "me:GenericPSR"
        · rw [if_pos h2] at hl'
          rcases List.mem_singleton.mp hl' with rfl
          rw [show "    <rh:PowerSystemResource.ccsCode>" ++ k ++
              "</rh:PowerSystemResource.ccsCode>" =
            ("    <rh:PowerSystemResource.ccsCode>" ++ k) ++
              "</rh:PowerSystemResource.ccsCode>" from rfl]
          rw [take5_append2 _ _ _ (by decide)]
          decide
        · rw [if_neg h2] at hl'
          cases hl'
    · rw [if_neg hk] at hl'
      cases hl'

theorem foldl_childStep_lines_take5 {g : Nat → String} {paths : List SegPath} :
    ∀ (cs : List SegPath) (st : List String × List String × List SegPath),
      (∀ l ∈ st.2.1, l.data.take 5 = [' ', ' ', ' ', ' ', '<']) →
      ∀ l ∈ (cs.foldl (childStep g paths) st).2.1,
        l.data.take 5 = [' ', ' ', ' ', ' ', '<'] := by
  intro cs
  induction cs with
  | nil => exact fun st h => h
  | cons c cs' ih =>
    intro st hst
    rw [List.foldl_cons]
    refine ih _ ?_
    unfold childStep
    by_cases h1 : c ∈ idDomain paths
    · rw [if_pos h1]
      by_cases h2 : idOf g paths c ∈ st.1
      · rw [if_pos h2]
        exact hst
      · rw [if_neg h2]
        intro l hl
        rcases List.mem_append.mp hl with h | h
        · exact hst l h
        · rcases List.mem_singleton.mp h with rfl
          exact childLine_take5 _
    · rw [if_neg h1]
      exact hst

theorem elementType_cases (cm : List (SegPath × List SegPath)) (p : SegPath) :
    elementType cm p = "cim:AssetContainer" ∨
      elementType cm p = "me:GenericPSR" := by
  unfold elementType
  by_cases h1 : p.length = 1
  · rw [if_pos h1]
    exact Or.inl rfl
  · rw [if_neg h1]
    by_cases h2 : childrenOf cm p = []
    · rw [if_pos h2]
      exact Or.inr rfl
    · rw [if_neg h2]
      exact Or.inl rfl

theorem openLine_inj_right {et a b : String}
    (h : openLine et a = openLine et b) : a = b := by
  have hd := congrArg String.data h
  rw [show openLine et a = ((("  <" ++ et) ++ " rdf:about=\"") ++ a) ++ "\">"
      from rfl,
    show openLine et b = ((("  <" ++ et) ++ " rdf:about=\"") ++ b) ++ "\">"
      from rfl] at hd
  simp only [String.data_append, List.append_assoc] at hd
  have h1 := List.append_cancel_left (List.append_cancel_left
    (List.append_cancel_left hd))
  exact String.ext (List.append_cancel_right h1)

end XMLGenerator

namespace XMLGenerator

theorem ns_foldl_take5 (ns : List (String × String)) :
    ∀ acc : String, 5 ≤ acc.data.length →
      5 ≤ ((ns.foldl
        (fun a nu => a ++ " xmlns:" ++ nu.1 ++ "=\"" ++ nu.2 ++ "\"")
        acc)).data.length ∧
      ((ns.foldl
        (fun a nu => a ++ " xmlns:" ++ nu.1 ++ "=\"" ++ nu.2 ++ "\"")
        acc)).data.take 5 = acc.data.take 5 := by
  induction ns with
  | nil => exact fun acc h => ⟨h, rfl⟩
  | cons nu ns' ih =>
    intro acc h
    rw [List.foldl_cons]
    have h1 : 5 ≤ (acc ++ " xmlns:").data.length :=
      le_trans h (data_len_append_ge _ _)
    have h2 : 5 ≤ ((acc ++ " xmlns:") ++ nu.1).data.length :=
      le_trans h1 (data_len_append_ge _ _)
    have h3 : 5 ≤ (((acc ++ " xmlns:") ++ nu.1) ++ "=\"").data.length :=
      le_trans h2 (data_len_append_ge _ _)
    have h4 : 5 ≤ ((((acc ++ " xmlns:") ++ nu.1) ++ "=\"") ++ nu.2).data.length :=
      le_trans h3 (data_len_append_ge _ _)
    have hlen :
        5 ≤ (acc ++ " xmlns:" ++ nu.1 ++ "=\"" ++ nu.2 ++ "\"").data.length :=
      le_trans h4 (data_len_append_ge _ _)
    have htake :
        (acc ++ " xmlns:" ++ nu.1 ++ "=\"" ++ nu.2 ++ "\"").data.take 5 =
          acc.data.take 5 := by
      rw [data_take_append _ "\"" h4, data_take_append _ nu.2 h3,
        data_take_append _ "=\"" h2, data_take_append _ nu.1 h1,
        data_take_append _ " xmlns:" h]
    obtain ⟨hl, ht⟩ := ih _ hlen
    exact ⟨hl, ht.trans htake⟩

theorem header_take5 {cfg : Config} :
    ∀ l ∈ headerLines cfg,
      l.data.take 5 ≠ [' ', ' ', '<', 'c', 'i'] ∧
      l.data.take 5 ≠ [' ', ' ', '<', 'm', 'e'] := by
  intro l hl
  unfold headerLines at hl
  simp only [List.mem_cons, List.not_mem_nil, or_false] at hl
  rcases hl with rfl | rfl | rfl | rfl | rfl | rfl | rfl | rfl | rfl
  · exact ⟨by decide, by decide⟩
  · exact ⟨by decide, by decide⟩
  · exact ⟨by decide, by decide⟩
  · have := (ns_foldl_take5 cfg.namespaces "<rdf:RDF" (by decide)).2
    rw [data_take_append _ ">"
      (le_trans (by decide) (ns_foldl_take5 cfg.namespaces "<rdf:RDF"
        (by decide)).1), this]
    exact ⟨by decide, by decide⟩
  · rw [show "  <md:FullModel rdf:about=\"" ++ ("#_" ++ cfg.modelId) ++ "\">" =
      ("  <md:FullModel rdf:about=\"" ++ ("#_" ++ cfg.modelId)) ++ "\">"
      from rfl, take5_append2 _ _ _ (by decide)]
    exact ⟨by decide, by decide⟩
  · rw [show "    <md:Model.created>" ++ cfg.modelCreated ++
        "</md:Model.created>" =
      ("    <md:Model.created>" ++ cfg.modelCreated) ++ "</md:Model.created>"
      from rfl, take5_append2 _ _ _ (by decide)]
    exact ⟨by decide, by decide⟩
  · rw [show "    <md:Model.version>" ++ cfg.modelVersion ++
        "</md:Model.version>" =
      ("    <md:Model.version>" ++ cfg.modelVersion) ++ "</md:Model.version>"
      from rfl, take5_append2 _ _ _ (by decide)]
    exact ⟨by decide, by decide⟩
  · rw [show "    <me:Model.name>" ++ cfg.modelName ++ "</me:Model.name>" =
      ("    <me:Model.name>" ++ cfg.modelName) ++ "</me:Model.name>"
      from rfl, take5_append2 _ _ _ (by decide)]
    exact ⟨by decide, by decide⟩
  · exact ⟨by decide, by decide⟩


/-- The opening tag of `p` matches nothing in the block of `q` except the
opening tag of `q`, and that one exactly when `q = p`. -/
theorem count_open_emitLines {g : Nat → String} {paths : List SegPath}
    (cm : List (SegPath × List SegPath)) (pm : List (SegPath × SegPath))
    (pum : List (SegPath × String)) (pu : String)
    (cck : List (SegPath × String)) (hg : Function.Injective g)
    {p q : SegPath} (hp : p ∈ paths) (hq : q ∈ paths) :
    (emitLines g paths cm pm pum pu cck q).count
        (openLine (elementType cm p) (idOf g paths p)) =
      (if q = p then 1 else 0) := by
  have hopt5 :
      (openLine (elementType cm p) (idOf g paths p)).data.take 5 =
          [' ', ' ', '<', 'c', 'i'] ∨
      (openLine (elementType cm p) (idOf g paths p)).data.take 5 =
          [' ', ' ', '<', 'm', 'e'] := by
    rcases elementType_cases cm p with h | h
    · rw [h]
      exact Or.inl (openLine_take5_C _)
    · rw [h]
      exact Or.inr (openLine_take5_G _)
  have hemit : emitLines g paths cm pm pum pu cck q =
      openLine (elementType cm q) (idOf g paths q) ::
        ([nameLine q,
          parentLine (parentResource g paths pm pum pu q)] ++
         assetLines (elementType cm q)
           (parentResource g paths pm pum pu q) ++
         kksLines cck (elementType cm q) q ++
         (if elementType cm q = "cim:AssetContainer" then
            (childFold g paths cm q).1 else []) ++
         ["  </" ++ elementType cm q ++ ">"]) := rfl
  rw [hemit, List.count_cons]
  have hrest :
      openLine (elementType cm p) (idOf g paths p) ∉
        ([nameLine q,
          parentLine (parentResource g paths pm pum pu q)] ++
         assetLines (elementType cm q)
           (parentResource g paths pm pum pu q) ++
         kksLines cck (elementType cm q) q ++
         (if elementType cm q = "cim:AssetContainer" then
            (childFold g paths cm q).1 else []) ++
         ["  </" ++ elementType cm q ++ ">"]) := by
    intro hmem
    have hfour :
        (openLine (elementType cm p) (idOf g paths p)).data.take 5 =
            [' ', ' ', ' ', ' ', '<'] ∨
        (openLine (elementType cm p) (idOf g paths p)).data.take 5 =
            ("  </" ++ elementType cm q ++ ">").data.take 5 := by
      rcases List.mem_append.mp hmem with hmem1 | hmem1
      · rcases List.mem_append.mp hmem1 with hmem2 | hmem2
        · rcases List.mem_append.mp hmem2 with hmem3 | hmem3
          · rcases List.mem_append.mp hmem3 with hmem4 | hmem4
            · rcases List.mem_cons.mp hmem4 with he | he
              · exact Or.inl (by rw [he]; exact nameLine_take5 q)
              · have he' := List.mem_singleton.mp he
                exact Or.inl (by rw [he']; exact parentLine_take5 _)
            · exact Or.inl (assetLines_take5 hmem4)
          · exact Or.inl (kksLines_take5 hmem3)
        · by_cases het : elementType cm q = "cim:AssetContainer"
          · rw [if_pos het] at hmem2
            exact Or.inl (foldl_childStep_lines_take5
              (childrenOf cm q) ([], [], []) (by intro l hl; cases hl)
              _ hmem2)
          · rw [if_neg het] at hmem2
            cases hmem2
      · have he := List.mem_singleton.mp hmem1
        exact Or.inr (by rw [he])
    rcases hfour with hf | hf
    · rcases hopt5 with h | h <;> rw [h] at hf <;> cases hf
    · rcases elementType_cases cm q with hc | hc <;> rw [hc] at hf <;>
        rcases hopt5 with h | h <;> rw [h] at hf <;>
        revert hf <;> decide
  rw [List.count_eq_zero.mpr hrest]
  by_cases hqp : q = p
  · subst hqp
    simp
  · have hne : openLine (elementType cm q) (idOf g paths q) ≠
        openLine (elementType cm p) (idOf g paths p) := by
      intro he
      rcases elementType_cases cm p with hcp | hcp <;>
        rcases elementType_cases cm q with hcq | hcq
      · rw [hcp, hcq] at he
        exact hqp (idOf_inj_on hg hq hp (openLine_inj_right he))
      · rw [hcp, hcq] at he
        have h5 := openLine_take5_G (idOf g paths q)
        rw [he, openLine_take5_C] at h5
        cases h5
      · rw [hcp, hcq] at he
        have h5 := openLine_take5_C (idOf g paths q)
        rw [he, openLine_take5_G] at h5
        cases h5
      · rw [hcp, hcq] at he
        exact hqp (idOf_inj_on hg hq hp (openLine_inj_right he))
    simp [hne, hqp]

end XMLGenerator

namespace XMLGenerator

theorem map_congr_mem {α β : Type} {l : List α} {f f' : α → β}
    (h : ∀ x ∈ l, f x = f' x) : l.map f = l.map f' := by
  induction l with
  | nil => rfl
  | cons a as ih =>
    rw [List.map_cons, List.map_cons, h a (List.mem_cons_self a as),
      ih (fun x hx => h x (List.mem_cons_of_mem _ hx))]

theorem sum_map_indicator_nodup (l : List SegPath) (p : SegPath)
    (hnd : l.Nodup) (hp : p ∈ l) :
    (l.map (fun q => if q = p then 1 else 0)).sum = 1 := by
  induction l with
  | nil => cases hp
  | cons a as ih =>
    rw [List.map_cons, List.sum_cons]
    by_cases h : a = p
    · subst h
      have hz : (as.map (fun q => if q = a then 1 else 0)).sum = 0 := by
        refine List.sum_eq_zero ?_
        intro x hx
        obtain ⟨q, hq, rfl⟩ := List.mem_map.mp hx
        refine if_neg ?_
        intro he
        exact (List.nodup_cons.mp hnd).1 (he ▸ hq)
      simp [hz]
    · rw [if_neg h]
      have hp' : p ∈ as := by
        rcases List.mem_cons.mp hp with rfl | h2
        · exact absurd rfl h
        · exact h2
      simpa using ih (List.nodup_cons.mp hnd).2 hp' 

end XMLGenerator

/-- C7: exactly-once emission.  For every path in the list, the generated
document contains the opening tag of that path's element exactly once
(all paths are enqueued up front and the visited set prevents duplicates),
and that path's block is a matched opening/closing element pair. -/
theorem claim_C7_thm (cfg : XMLGenerator.Config) (g : Nat → String)
    (paths : List SegPath) (ec : List (SegPath × List String)) (pu : String)
    (cck : List (SegPath × String)) (pum : List (SegPath × String))
    (vc : List SegPath) (p : SegPath)
    (hg : Function.Injective g) (hnonempty : ∀ q ∈ paths, q ≠ [])
    (hp : p ∈ paths) :
    ∃ L, XMLGenerator.generateLines cfg g paths ec pu cck pum vc = .ok L ∧
      L.count (XMLGenerator.openLine
        (XMLGenerator.elementType (XMLGenerator.cmOf paths) p)
        (XMLGenerator.idOf g paths p)) = 1 ∧
      ∃ mid, XMLGenerator.emitLines g paths (XMLGenerator.cmOf paths)
          (XMLGenerator.pmOf paths) pum pu cck p =
        XMLGenerator.openLine
            (XMLGenerator.elementType (XMLGenerator.cmOf paths) p)
            (XMLGenerator.idOf g paths p) :: mid ++
          ["  </" ++ XMLGenerator.elementType (XMLGenerator.cmOf paths) p ++
            ">"] := by
  have hne : paths ≠ [] := by
    intro h
    rw [h] at hp
    cases hp
  refine ⟨_, XMLGenerator.generateLines_ok cfg g paths ec pu cck pum vc hne,
    ?_, ?_⟩
  · rw [List.count_append, List.count_append]
    have hhdr : (XMLGenerator.headerLines cfg).count
        (XMLGenerator.openLine
          (XMLGenerator.elementType (XMLGenerator.cmOf paths) p)
          (XMLGenerator.idOf g paths p)) = 0 := by
      rw [List.count_eq_zero]
      intro hmem
      have h2 := XMLGenerator.header_take5 _ hmem
      rcases XMLGenerator.elementType_cases (XMLGenerator.cmOf paths) p
        with h | h
      · exact h2.1 (by rw [h]; exact XMLGenerator.openLine_take5_C _)
      · exact h2.2 (by rw [h]; exact XMLGenerator.openLine_take5_G _)
    have hftr : (["</rdf:RDF>"] : List String).count
        (XMLGenerator.openLine
          (XMLGenerator.elementType (XMLGenerator.cmOf paths) p)
          (XMLGenerator.idOf g paths p)) = 0 := by
      rw [List.count_eq_zero]
      intro hmem
      have he := List.mem_singleton.mp hmem
      rcases XMLGenerator.elementType_cases (XMLGenerator.cmOf paths) p
        with h | h
      · rw [h] at he
        have h5 := XMLGenerator.openLine_take5_C (XMLGenerator.idOf g paths p)
        rw [he] at h5
        exact absurd h5 (by decide)
      · rw [h] at he
        have h5 := XMLGenerator.openLine_take5_G (XMLGenerator.idOf g paths p)
        rw [he] at h5
        exact absurd h5 (by decide)
    have hflat : ((XMLGenerator.idDomain paths).flatMap
        (XMLGenerator.emitLines g paths (XMLGenerator.cmOf paths)
          (XMLGenerator.pmOf paths) pum pu cck)).count
        (XMLGenerator.openLine
          (XMLGenerator.elementType (XMLGenerator.cmOf paths) p)
          (XMLGenerator.idOf g paths p)) = 1 := by
      rw [List.count_flatMap]
      have hmapeq :
          List.map
            (List.count
              (XMLGenerator.openLine
                (XMLGenerator.elementType (XMLGenerator.cmOf paths) p)
                (XMLGenerator.idOf g paths p)) ∘
              XMLGenerator.emitLines g paths (XMLGenerator.cmOf paths)
                (XMLGenerator.pmOf paths) pum pu cck)
            (XMLGenerator.idDomain paths) =
          List.map (fun q => if q = p then 1 else 0)
            (XMLGenerator.idDomain paths) :=
        XMLGenerator.map_congr_mem
          (fun q hq => XMLGenerator.count_open_emitLines
            (XMLGenerator.cmOf paths) (XMLGenerator.pmOf paths) pum pu cck hg
            hp (XMLGenerator.mem_idDomain.mp hq))
      rw [hmapeq]
      exact XMLGenerator.sum_map_indicator_nodup _ _
        (XMLGenerator.nodup_dedupF paths [])
        (XMLGenerator.mem_idDomain.mpr hp)
    rw [hhdr, hftr, hflat]
  · refine ⟨[XMLGenerator.nameLine p,
      XMLGenerator.parentLine (XMLGenerator.parentResource g paths
        (XMLGenerator.pmOf paths) pum pu p)] ++
      XMLGenerator.assetLines
        (XMLGenerator.elementType (XMLGenerator.cmOf paths) p)
        (XMLGenerator.parentResource g paths (XMLGenerator.pmOf paths) pum pu
          p) ++
      XMLGenerator.kksLines cck
        (XMLGenerator.elementType (XMLGenerator.cmOf paths) p) p ++
      (if XMLGenerator.elementType (XMLGenerator.cmOf paths) p =
          "cim:AssetContainer" then
        (XMLGenerator.childFold g paths (XMLGenerator.cmOf paths) p).1
      else []), ?_⟩
    simp [XMLGenerator.emitLines, List.append_assoc]

/-- Witness for C7 at a concrete single-path input with an injective
supplier. -/
theorem claim_C7_witness :
    (Function.Injective gInj ∧ (∀ q ∈ [["A"]], q ≠ []) ∧
      (["A"] : SegPath) ∈ [["A"]]) ∧
    (∃ L, XMLGenerator.generateLines cfg0 gInj [["A"]] [] "#p" [] [] [] =
        .ok L ∧
      L.count (XMLGenerator.openLine
        (XMLGenerator.elementType (XMLGenerator.cmOf [["A"]]) ["A"])
        (XMLGenerator.idOf gInj [["A"]] ["A"])) = 1 ∧
      ∃ mid, XMLGenerator.emitLines gInj [["A"]] (XMLGenerator.cmOf [["A"]])
          (XMLGenerator.pmOf [["A"]]) [] "#p" [] ["A"] =
        XMLGenerator.openLine
            (XMLGenerator.elementType (XMLGenerator.cmOf [["A"]]) ["A"])
            (XMLGenerator.idOf gInj [["A"]] ["A"]) :: mid ++
          ["  </" ++
            XMLGenerator.elementType (XMLGenerator.cmOf [["A"]]) ["A"] ++
            ">"]) := by
  have hinj : Function.Injective gInj := fun a b h => by
    have := congrArg (fun s => s.data.length) h
    simpa [gInj] using this
  exact ⟨⟨hinj, by decide, by decide⟩,
    claim_C7_thm cfg0 gInj [["A"]] [] "#p" [] [] [] ["A"] hinj (by decide)
      (by decide)⟩
